import Mathlib

/-!
Shallow embedding of the BlockDrop puzzle-game engine
(core/model/Tetrimino.kt, core/model/Orb.kt, core/model/Grid.kt,
core/engine/GameEngine.kt, core/model/PowerUpType companion).

Conventions of the embedding:
* Kotlin Int grid coordinates are Lean Int; cell contents (color indices,
  0 = empty) are Nat since the code only ever stores 0 or a positive index.
* The 10x20 grid of GameEngine (Grid(10, 20)) is fixed by the constants
  gridWidth and gridHeight; the cell matrix is a total function
  (row index, column index) -> Nat, mutated by functional update exactly
  where the source writes.
* Random draws (Random.nextFloat, Random.nextInt) are passed in as explicit
  oracle values: a Float roll becomes a rational number, and nextInt(n)
  becomes an arbitrary natural number taken modulo n (every in-range value
  is representable, and only in-range values arise).
* Kotlin Float constants (0.05f, 0.75f, ...) are modelled as the exact
  rationals they denote in the source text.
* System.currentTimeMillis() is passed in as an explicit parameter now.
-/

namespace BlockDrop

/-- Grid dimensions: GameEngine owns Grid(10, 20). -/
def gridWidth : Nat := 10

/-- Grid height of the 10x20 grid. -/
def gridHeight : Nat := 20

/-- Position data class: an integer (x, y) grid coordinate. -/
structure Position where
  x : Int
  y : Int
deriving DecidableEq

/-- TetriminoType enum {I, O, T, L, J, S, Z}. -/
inductive TetriminoType
  | I | O | T | L | J | S | Z
deriving DecidableEq

/-- PowerUpType enum {BOMB, LINE_CLEAR, GHOST}. -/
inductive PowerUpType
  | BOMB | LINE_CLEAR | GHOST
deriving DecidableEq

/-- OrbType enum {SMALL, MEDIUM, LARGE}. -/
inductive OrbType
  | SMALL | MEDIUM | LARGE
deriving DecidableEq

/-- OrbType.multiplier: SMALL 2, MEDIUM 3, LARGE 5. -/
def OrbType.multiplier : OrbType → Nat
  | .SMALL => 2
  | .MEDIUM => 3
  | .LARGE => 5

/-- Orb data class: position, multiplier, type. -/
structure Orb where
  position : Position
  multiplier : Nat
  type : OrbType
deriving DecidableEq

/-- Orb.createRandom: the nextFloat draw picks SMALL with 60 percent,
MEDIUM with 30 percent, LARGE with 10 percent. -/
def Orb.createRandom (position : Position) (roll : ℚ) : Orb :=
  let type : OrbType :=
    if roll < 6/10 then .SMALL
    else if roll < 9/10 then .MEDIUM
    else .LARGE
  ⟨position, type.multiplier, type⟩

/-- TetriminoType.getShape: the rotation-indexed shape bitmap tables,
verbatim from the source (I, S, Z select on rotation mod 2; T, L, J on
rotation with an else branch; O is rotation invariant). -/
def TetriminoType.getShape : TetriminoType → Nat → List (List Nat)
  | .I, r =>
    match r % 2 with
    | 0 => [[0,0,0,0],[1,1,1,1],[0,0,0,0],[0,0,0,0]]
    | _ => [[0,0,1,0],[0,0,1,0],[0,0,1,0],[0,0,1,0]]
  | .O, _ => [[1,1],[1,1]]
  | .T, r =>
    match r with
    | 0 => [[0,1,0],[1,1,1],[0,0,0]]
    | 1 => [[0,1,0],[0,1,1],[0,1,0]]
    | 2 => [[0,0,0],[1,1,1],[0,1,0]]
    | _ => [[0,1,0],[1,1,0],[0,1,0]]
  | .L, r =>
    match r with
    | 0 => [[0,0,1],[1,1,1],[0,0,0]]
    | 1 => [[0,1,0],[0,1,0],[0,1,1]]
    | 2 => [[0,0,0],[1,1,1],[1,0,0]]
    | _ => [[1,1,0],[0,1,0],[0,1,0]]
  | .J, r =>
    match r with
    | 0 => [[1,0,0],[1,1,1],[0,0,0]]
    | 1 => [[0,1,1],[0,1,0],[0,1,0]]
    | 2 => [[0,0,0],[1,1,1],[0,0,1]]
    | _ => [[0,1,0],[0,1,0],[1,1,0]]
  | .S, r =>
    match r % 2 with
    | 0 => [[0,1,1],[1,1,0],[0,0,0]]
    | _ => [[0,1,0],[0,1,1],[0,0,1]]
  | .Z, r =>
    match r % 2 with
    | 0 => [[1,1,0],[0,1,1],[0,0,0]]
    | _ => [[0,0,1],[0,1,1],[0,1,0]]

/-- Tetrimino data class: type, position (default (4, 0)), rotation
(0..3, default 0), optional power-up. -/
structure Tetrimino where
  type : TetriminoType
  position : Position := ⟨4, 0⟩
  rotation : Nat := 0
  powerUp : Option PowerUpType := none
deriving DecidableEq

/-- The current shape based on rotation. -/
def Tetrimino.shape (t : Tetrimino) : List (List Nat) :=
  t.type.getShape t.rotation

/-- Tetrimino.getBlocks: absolute coordinates of the filled shape cells,
scanning y over shape.indices and x over shape[y].indices. -/
def Tetrimino.getBlocks (t : Tetrimino) : List Position :=
  let s := t.shape
  (List.range s.length).flatMap (fun y =>
    (List.range ((s.getD y []).length)).filterMap (fun x =>
      if (s.getD y []).getD x 0 = 1 then
        some ⟨t.position.x + x, t.position.y + y⟩
      else none))

/-- Tetrimino.moveLeft: copy with x decremented. -/
def Tetrimino.moveLeft (t : Tetrimino) : Tetrimino :=
  { t with position := ⟨t.position.x - 1, t.position.y⟩ }

/-- Tetrimino.moveRight: copy with x incremented. -/
def Tetrimino.moveRight (t : Tetrimino) : Tetrimino :=
  { t with position := ⟨t.position.x + 1, t.position.y⟩ }

/-- Tetrimino.moveDown: copy with y incremented. -/
def Tetrimino.moveDown (t : Tetrimino) : Tetrimino :=
  { t with position := ⟨t.position.x, t.position.y + 1⟩ }

/-- Tetrimino.rotate: rotation incremented modulo 4. -/
def Tetrimino.rotate (t : Tetrimino) : Tetrimino :=
  { t with rotation := (t.rotation + 1) % 4 }

/-- Grid state: the cell matrix (0 = empty, positive = color index), the
color-identity bookkeeping (colorMap and nextColorIndex; block colors are
distinct per piece type, so the Color key is modelled by TetriminoType),
and the resident orbs. -/
structure GridState where
  cells : Nat → Nat → Nat
  colorMap : List (Nat × TetriminoType)
  nextColorIndex : Nat
  orbs : List Orb

/-- Grid.isInBounds. -/
def isInBounds (p : Position) : Bool :=
  decide (0 ≤ p.x) && decide (p.x < (gridWidth : Int)) &&
  decide (0 ≤ p.y) && decide (p.y < (gridHeight : Int))

/-- Grid.isEmpty: out of bounds counts as not empty. -/
def GridState.isEmpty (g : GridState) (p : Position) : Bool :=
  isInBounds p && (g.cells p.y.toNat p.x.toNat == 0)

/-- Grid.canPlace. -/
def GridState.canPlace (g : GridState) (t : Tetrimino) : Bool :=
  t.getBlocks.all g.isEmpty

/-- Grid.getColorIndex: find the existing index for a color, else allocate
nextColorIndex (which starts at 1 and increments). -/
def GridState.getColorIndex (g : GridState) (c : TetriminoType) :
    Nat × GridState :=
  match g.colorMap.find? (fun e => e.2 == c) with
  | some e => (e.1, g)
  | none =>
      (g.nextColorIndex,
       { g with colorMap := g.colorMap ++ [(g.nextColorIndex, c)],
                nextColorIndex := g.nextColorIndex + 1 })

/-- Grid.place: write the color index into every in-bounds block cell of
the tetrimino (out-of-bounds blocks are silently ignored). -/
def GridState.place (g : GridState) (t : Tetrimino) : GridState :=
  let ci := (g.getColorIndex t.type).1
  let g1 := (g.getColorIndex t.type).2
  { g1 with cells := fun y x =>
      let hit := t.getBlocks.any
        (fun p => isInBounds p && p.x == (x : Int) && p.y == (y : Int))
      if hit then ci else g1.cells y x }

/-- Grid.isLineComplete: every cell of the row is filled. -/
def GridState.isLineComplete (g : GridState) (y : Nat) : Bool :=
  (List.range gridWidth).all (fun x => g.cells y x != 0)

/-- Grid.clearLine: zero every cell of row y. -/
def GridState.clearLine (g : GridState) (y : Nat) : GridState :=
  { g with cells := fun y' x => if y' = y then 0 else g.cells y' x }

/-- Grid.clearCell: zero the cell at an in-bounds position. -/
def GridState.clearCell (g : GridState) (p : Position) : GridState :=
  if isInBounds p then
    { g with cells := fun y x =>
        if (y : Int) = p.y ∧ (x : Int) = p.x then 0 else g.cells y x }
  else g

/-- Grid.shiftOrbsDown: every orb above the cleared line moves down one
row (the source updates each such orb in place through indexOf; element
by element this is the map below). -/
def GridState.shiftOrbsDown (g : GridState) (clearedY : Nat) : GridState :=
  { g with orbs := g.orbs.map (fun o =>
      if o.position.y < (clearedY : Int) then
        { o with position := ⟨o.position.x, o.position.y + 1⟩ }
      else o) }

/-- Grid.shiftLinesDown: rows 1..clearedY each receive the row above
(copying from clearedY down to 1 reads only not-yet-overwritten rows),
row 0 is cleared, and orbs are shifted down as well. -/
def GridState.shiftLinesDown (g : GridState) (clearedY : Nat) : GridState :=
  let g1 : GridState :=
    { g with cells := fun y x =>
        if y = 0 then 0
        else if y ≤ clearedY then g.cells (y - 1) x
        else g.cells y x }
  g1.shiftOrbsDown clearedY

/-- Grid.isGameOver: some cell of the top row is filled. -/
def GridState.isGameOver (g : GridState) : Bool :=
  (List.range gridWidth).any (fun x => g.cells 0 x != 0)

/-- Grid.reset: zero all cells, clear the color bookkeeping and orbs. -/
def GridState.reset (_g : GridState) : GridState :=
  { cells := fun _ _ => 0, colorMap := [], nextColorIndex := 1, orbs := [] }

/-- Grid.isOrbAt. -/
def GridState.isOrbAt (g : GridState) (p : Position) : Bool :=
  g.orbs.any (fun o => o.position.x == p.x && o.position.y == p.y)

/-- Grid.getOrbAt. -/
def GridState.getOrbAt (g : GridState) (p : Position) : Option Orb :=
  g.orbs.find? (fun o => o.position.x == p.x && o.position.y == p.y)

/-- Number of filled cells of a row (termination measure ingredient for
the clearLines scan). -/
def rowCount (g : GridState) (y : Nat) : Nat :=
  ∑ x ∈ Finset.range gridWidth, if g.cells y x ≠ 0 then 1 else 0

/-- Total number of filled in-bounds cells. -/
def filledCount (g : GridState) : Nat :=
  ∑ y ∈ Finset.range gridHeight, rowCount g y

/-- Cell matrix of clearLine followed by shiftLinesDown at the same row:
row 0 becomes empty, rows 1..y receive the row above, rows beyond y are
untouched. -/
theorem clearShift_cells (g : GridState) (y : Nat) (i x : Nat) :
    ((g.clearLine y).shiftLinesDown y).cells i x =
      if i = 0 then 0
      else if i ≤ y then g.cells (i - 1) x
      else g.cells i x := by
  simp only [GridState.clearLine, GridState.shiftLinesDown,
    GridState.shiftOrbsDown]
  split_ifs <;> first
    | rfl
    | omega

/-- clearLine + shiftLinesDown leaves the orb list as a shift map. -/
theorem clearShift_orbs (g : GridState) (y : Nat) :
    ((g.clearLine y).shiftLinesDown y).orbs =
      g.orbs.map (fun o =>
        if o.position.y < (y : Int) then
          { o with position := ⟨o.position.x, o.position.y + 1⟩ }
        else o) := rfl

theorem isLineComplete_iff (g : GridState) (y : Nat) :
    g.isLineComplete y = true ↔ ∀ x < gridWidth, g.cells y x ≠ 0 := by
  simp [GridState.isLineComplete, List.all_eq_true, List.mem_range]

/-- A complete row has gridWidth filled cells. -/
theorem rowCount_of_complete (g : GridState) (y : Nat)
    (h : g.isLineComplete y = true) : rowCount g y = gridWidth := by
  rw [isLineComplete_iff] at h
  have : ∀ x ∈ Finset.range gridWidth,
      (if g.cells y x ≠ 0 then 1 else 0) = 1 := by
    intro x hx
    rw [Finset.mem_range] at hx
    simp [h x hx]
  rw [rowCount, Finset.sum_congr rfl this]
  simp

/-- Summing a sequence with one index deleted and the tail shifted. -/
theorem sum_shift_delete (f : Nat → Nat) :
    ∀ n y, y ≤ n →
      (∑ i ∈ Finset.range n, if i < y then f i else f (i + 1)) + f y =
        ∑ i ∈ Finset.range (n + 1), f i := by
  intro n
  induction n with
  | zero =>
      intro y hy
      interval_cases y
      simp
  | succ n ih =>
      intro y hy
      rcases Nat.lt_or_ge y (n + 1) with hlt | hge
      · have hyn : y ≤ n := by omega
        have hn : ¬ n < y := by omega
        rw [Finset.sum_range_succ, if_neg hn, Finset.sum_range_succ]
        have := ih y hyn
        omega
      · have hy' : y = n + 1 := by omega
        subst hy'
        have : ∀ i ∈ Finset.range (n + 1),
            (if i < n + 1 then f i else f (i + 1)) = f i := by
          intro i hi
          rw [Finset.mem_range] at hi
          simp [hi]
        rw [Finset.sum_congr rfl this, ← Finset.sum_range_succ]

/-- Clearing a complete row and shifting strictly decreases the number of
filled cells (by exactly the width of the grid). -/
theorem filledCount_clearShift_lt (g : GridState) (y : Nat)
    (hy : y < gridHeight) (hc : g.isLineComplete y = true) :
    filledCount ((g.clearLine y).shiftLinesDown y) < filledCount g := by
  have hrow : ∀ i,
      rowCount ((g.clearLine y).shiftLinesDown y) i =
        if i = 0 then 0
        else if i ≤ y then rowCount g (i - 1)
        else rowCount g i := by
    intro i
    unfold rowCount
    split_ifs with h0 h1
    · apply Finset.sum_eq_zero
      intro x hx
      simp [clearShift_cells, h0]
    · apply Finset.sum_congr rfl
      intro x hx
      rw [clearShift_cells]
      simp [h0, h1]
    · apply Finset.sum_congr rfl
      intro x hx
      rw [clearShift_cells]
      simp [h0, h1]
  have hsplit : filledCount ((g.clearLine y).shiftLinesDown y) + rowCount g y
      = filledCount g := by
    unfold filledCount
    rw [Finset.sum_congr rfl (fun i _ => hrow i)]
    have h20 : gridHeight = 19 + 1 := by norm_num [gridHeight]
    rw [h20, Finset.sum_range_succ']
    have hstep : ∀ i,
        (if i + 1 = 0 then 0
         else if i + 1 ≤ y then rowCount g (i + 1 - 1)
         else rowCount g (i + 1)) =
          if i < y then rowCount g i else rowCount g (i + 1) := by
      intro i
      have : ¬ (i + 1 = 0) := by omega
      rw [if_neg this]
      rcases Nat.lt_or_ge i y with h | h
      · rw [if_pos (by omega), if_pos h]
        simp
      · rw [if_neg (by omega), if_neg (by omega)]
    rw [Finset.sum_congr rfl (fun i _ => hstep i)]
    simp only [reduceIte]
    have := sum_shift_delete (rowCount g) 19 y (by omega)
    omega
  have hwidth := rowCount_of_complete g y hc
  have : 0 < gridWidth := by norm_num [gridWidth]
  omega

/-- The clearLines scan (bottom row upward): on a complete row, collect
the multipliers of the orbs resident in the row, clear and shift, and
re-examine the same index; otherwise move up one row.  Returns the grid,
the orbs scheduled for removal, the number of lines cleared and the total
multiplier. -/
def clearLinesLoop (g : GridState) (pending : List Orb) (lines mult : Nat)
    (y : Nat) (hy : y < gridHeight) : GridState × List Orb × Nat × Nat :=
  if hc : g.isLineComplete y = true then
    let rowOrbs := g.orbs.filter (fun o => o.position.y == (y : Int))
    let mult' := mult * (rowOrbs.map Orb.multiplier).prod
    let pending' := pending ++ rowOrbs
    let g' := (g.clearLine y).shiftLinesDown y
    clearLinesLoop g' pending' (lines + 1) mult' y hy
  else if h0 : y = 0 then
    (g, pending, lines, mult)
  else
    clearLinesLoop g pending lines mult (y - 1) (by omega)
termination_by (filledCount g, y)
decreasing_by
  · exact Prod.Lex.left _ _ (filledCount_clearShift_lt g y hy hc)
  · exact Prod.Lex.right _ (by omega)

/-- The in-bounds positions scanned by trySpawnOrb (y from 4 until height,
x from 0 until width) that are empty and orb-free, in scan order. -/
def spawnCandidates (g : GridState) : List Position :=
  ((List.range gridHeight).filter (fun y => 4 ≤ y)).flatMap (fun (y : Nat) =>
    (List.range gridWidth).filterMap (fun (x : Nat) =>
      let p : Position := ⟨(x : Int), (y : Int)⟩
      if g.isEmpty p && !(g.isOrbAt p) then some p else none))

/-- Random draws consumed by clearLines after the scan: the spawn-gate
roll, and the draws of trySpawnOrb / Orb.createRandom. -/
structure OrbRand where
  spawnRoll : ℚ
  halfRoll : ℚ
  idxLower : Nat
  idxUpper : Nat
  typeRoll : ℚ

/-- Grid.trySpawnOrb: split the empty orb-free positions below the top 4
rows at the midpoint (height + 4) / 2, pick the lower half with
probability 0.75 when both halves are available, and append a random orb
at the chosen position. -/
def GridState.trySpawnOrb (g : GridState) (r : OrbRand) : GridState :=
  if 4 ≤ g.orbs.length then g
  else
    let midpoint : Nat := (gridHeight + 4) / 2
    let upperHalfPositions :=
      (spawnCandidates g).filter (fun p => p.y < (midpoint : Int))
    let lowerHalfPositions :=
      (spawnCandidates g).filter (fun p => !(p.y < (midpoint : Int)))
    let choice : Option Position :=
      if lowerHalfPositions.isEmpty && upperHalfPositions.isEmpty then none
      else if lowerHalfPositions.isEmpty then
        upperHalfPositions.get? (r.idxUpper % upperHalfPositions.length)
      else if upperHalfPositions.isEmpty then
        lowerHalfPositions.get? (r.idxLower % lowerHalfPositions.length)
      else if r.halfRoll < 3/4 then
        lowerHalfPositions.get? (r.idxLower % lowerHalfPositions.length)
      else
        upperHalfPositions.get? (r.idxUpper % upperHalfPositions.length)
    match choice with
    | none => g
    | some p => { g with orbs := g.orbs ++ [Orb.createRandom p r.typeRoll] }

/-- Grid.clearLines: run the scan from the bottom row, remove the
collected orbs, and possibly spawn a replacement orb (chance 0.5 when the
grid had the maximum 4 orbs and will drop below, else 0.3).  Returns the
new grid state, the number of lines cleared and the total multiplier. -/
def GridState.clearLines (g : GridState) (r : OrbRand) :
    GridState × Nat × Nat :=
  let out := clearLinesLoop g [] 0 1 (gridHeight - 1) (by norm_num [gridHeight])
  let g1 := out.1
  let pending := out.2.1
  let lines := out.2.2.1
  let mult := out.2.2.2
  let hadFourOrbs := g1.orbs.length == 4
  let willHaveLessThanMax := g1.orbs.length - pending.length < 4
  let g2 := { g1 with orbs := g1.orbs.filter (fun o => decide (o ∉ pending)) }
  let g3 :=
    if g2.orbs.length < 4 then
      let spawnChance : ℚ :=
        if hadFourOrbs && willHaveLessThanMax then 1/2 else 3/10
      if r.spawnRoll < spawnChance then g2.trySpawnOrb r else g2
    else g2
  (g3, lines, mult)

/-- PowerUpType.shouldGeneratePowerUp chance: base 0.05f plus
level * 0.01f, coerced to at most 0.15f. -/
def powerUpChance (level : Nat) : ℚ :=
  let baseChance : ℚ := 5/100
  let levelBonus : ℚ := level * (1/100)
  min (baseChance + levelBonus) (15/100)

/-- PowerUpType.shouldGeneratePowerUp: nextFloat below the chance. -/
def shouldGeneratePowerUp (level : Nat) (roll : ℚ) : Bool :=
  roll < powerUpChance level

/-- PowerUpType.values(), in declaration order. -/
def PowerUpType.all : List PowerUpType := [.BOMB, .LINE_CLEAR, .GHOST]

/-- TetriminoType.values(), in declaration order. -/
def TetriminoType.all : List TetriminoType :=
  [.I, .O, .T, .L, .J, .S, .Z]

/-- PowerUpType.random: uniform pick among the three values. -/
def PowerUpType.random (i : Nat) : PowerUpType :=
  PowerUpType.all.getD (i % PowerUpType.all.length) .BOMB

/-- Random draws consumed when generating one tetrimino. -/
structure PieceRand where
  typeIdx : Nat
  powerRoll : ℚ
  powerIdx : Nat

/-- GameEngine.generateRandomTetrimino: a uniform random type, with a
power-up attached when the level-dependent Bernoulli trial succeeds. -/
def generateRandomTetrimino (level : Nat) (r : PieceRand) : Tetrimino :=
  let randomType :=
    TetriminoType.all.getD (r.typeIdx % TetriminoType.all.length) .I
  let powerUp :=
    if shouldGeneratePowerUp level r.powerRoll then
      some (PowerUpType.random r.powerIdx)
    else none
  { type := randomType, powerUp := powerUp }

/-- GameState enum. -/
inductive GameStateE
  | NotStarted | Running | Paused | GameOver
deriving DecidableEq

/-- GameEngine state: the owned grid, current and next pieces, game
state, score, multiplier, level, multiplier expiry timestamp and ghost
position. -/
structure Engine where
  grid : GridState
  currentTetrimino : Option Tetrimino
  nextTetrimino : Option Tetrimino
  gameState : GameStateE
  score : Nat
  multiplier : Nat
  level : Nat
  multiplierEndTime : Int
  ghostPosition : Option Position

/-- GameEngine.isValidMove: a GHOST piece only needs to stay inside the
horizontal bounds and above the bottom; any other piece additionally
needs every block with non-negative y to sit on an empty cell. -/
def isValidMove (g : GridState) (t : Tetrimino) : Bool :=
  if t.powerUp == some PowerUpType.GHOST then
    t.getBlocks.all (fun p =>
      decide (p.y < (gridHeight : Int)) &&
      (decide (0 ≤ p.x) && decide (p.x < (gridWidth : Int))))
  else
    t.getBlocks.all (fun p =>
      decide (p.y < (gridHeight : Int)) &&
      (decide (0 ≤ p.x) && decide (p.x < (gridWidth : Int))) &&
      (decide (p.y < 0) || g.isEmpty p))

/-- Membership in getBlocks comes from a filled shape cell: the block is
the piece position translated by natural-number offsets. -/
theorem mem_getBlocks (t : Tetrimino) (p : Position)
    (hp : p ∈ t.getBlocks) :
    ∃ dy dx : Nat, p = ⟨t.position.x + dx, t.position.y + dy⟩ := by
  simp only [Tetrimino.getBlocks, List.mem_flatMap, List.mem_filterMap,
    List.mem_range] at hp
  obtain ⟨dy, _, dx, _, hif⟩ := hp
  refine ⟨dy, dx, ?_⟩
  by_cases h : ((t.shape.getD dy []).getD dx 0) = 1
  · rw [if_pos h] at hif
    exact (Option.some_inj.mp hif).symm
  · rw [if_neg h] at hif
    cases hif

/-- Every shape table row set is non-empty: getBlocks never returns the
empty list, for every type and every rotation value. -/
theorem getBlocks_ne_nil (t : Tetrimino) : t.getBlocks ≠ [] := by
  obtain ⟨ty, pos, rot, pu⟩ := t
  have htwo : rot % 2 = 0 ∨ rot % 2 = 1 := Nat.mod_two_eq_zero_or_one rot
  cases ty with
  | I =>
      rcases htwo with h | h <;>
        simp [Tetrimino.getBlocks, Tetrimino.shape, TetriminoType.getShape,
          h, List.filterMap, List.range_succ]
  | O =>
      simp [Tetrimino.getBlocks, Tetrimino.shape, TetriminoType.getShape,
        List.filterMap, List.range_succ]
  | T =>
      rcases rot with _ | _ | _ | r <;>
        simp [Tetrimino.getBlocks, Tetrimino.shape, TetriminoType.getShape,
          List.filterMap, List.range_succ]
  | L =>
      rcases rot with _ | _ | _ | r <;>
        simp [Tetrimino.getBlocks, Tetrimino.shape, TetriminoType.getShape,
          List.filterMap, List.range_succ]
  | J =>
      rcases rot with _ | _ | _ | r <;>
        simp [Tetrimino.getBlocks, Tetrimino.shape, TetriminoType.getShape,
          List.filterMap, List.range_succ]
  | S =>
      rcases htwo with h | h <;>
        simp [Tetrimino.getBlocks, Tetrimino.shape, TetriminoType.getShape,
          h, List.filterMap, List.range_succ]
  | Z =>
      rcases htwo with h | h <;>
        simp [Tetrimino.getBlocks, Tetrimino.shape, TetriminoType.getShape,
          h, List.filterMap, List.range_succ]

/-- A piece that passes isValidMove has its anchor row above the grid
bottom (all blocks are below row gridHeight and at least one block
exists). -/
theorem position_lt_of_isValidMove (g : GridState) (t : Tetrimino)
    (h : isValidMove g t = true) : t.position.y < (gridHeight : Int) := by
  obtain ⟨p, hp⟩ := List.exists_mem_of_ne_nil _ (getBlocks_ne_nil t)
  obtain ⟨dy, dx, hpd⟩ := mem_getBlocks t p hp
  have hy : p.y < (gridHeight : Int) := by
    unfold isValidMove at h
    by_cases hg : t.powerUp == some PowerUpType.GHOST
    · rw [if_pos hg] at h
      rw [List.all_eq_true] at h
      have := h p hp
      simp only [Bool.and_eq_true, decide_eq_true_eq] at this
      exact this.1
    · rw [if_neg hg] at h
      rw [List.all_eq_true] at h
      have := h p hp
      simp only [Bool.and_eq_true, decide_eq_true_eq] at this
      exact this.1.1
  have : p.y = t.position.y + dy := by rw [hpd]
  omega

/-- The descent loop shared by hardDrop and updateGhostPosition: move the
piece down while the moved piece is a valid move. -/
def descend (g : GridState) (t : Tetrimino) : Tetrimino :=
  if isValidMove g t.moveDown = true then descend g t.moveDown else t
termination_by ((gridHeight : Int) + 4 - t.position.y).toNat
decreasing_by
  have hlt := position_lt_of_isValidMove g t.moveDown (by assumption)
  simp only [Tetrimino.moveDown] at hlt ⊢
  omega

/-- GameEngine.updateGhostPosition: the ghost is the landing position of
the current piece (none when no piece is falling). -/
def updateGhostPositionE (s : Engine) : Engine :=
  match s.currentTetrimino with
  | some t => { s with ghostPosition := some (descend s.grid t).position }
  | none => { s with ghostPosition := none }

/-- GameEngine.moveLeft: commit the transformed piece and recompute the
ghost only when the move is valid. -/
def moveLeftE (s : Engine) : Engine :=
  match s.currentTetrimino with
  | none => s
  | some t =>
      let movedTetrimino := t.moveLeft
      if isValidMove s.grid movedTetrimino then
        updateGhostPositionE { s with currentTetrimino := some movedTetrimino }
      else s

/-- GameEngine.moveRight. -/
def moveRightE (s : Engine) : Engine :=
  match s.currentTetrimino with
  | none => s
  | some t =>
      let movedTetrimino := t.moveRight
      if isValidMove s.grid movedTetrimino then
        updateGhostPositionE { s with currentTetrimino := some movedTetrimino }
      else s

/-- GameEngine.rotate. -/
def rotateE (s : Engine) : Engine :=
  match s.currentTetrimino with
  | none => s
  | some t =>
      let rotatedTetrimino := t.rotate
      if isValidMove s.grid rotatedTetrimino then
        updateGhostPositionE { s with currentTetrimino := some rotatedTetrimino }
      else s

/-- The x coordinate of the bomb centroid: the average of the block x
coordinates, truncated toward zero by Double.toInt; truncation of an
exact small-integer average is truncating integer division. -/
def bombCenterX (t : Tetrimino) : Int :=
  Int.tdiv (t.getBlocks.map Position.x).sum t.getBlocks.length

/-- The y coordinate of the bomb centroid. -/
def bombCenterY (t : Tetrimino) : Int :=
  Int.tdiv (t.getBlocks.map Position.y).sum t.getBlocks.length

/-- GameEngine.applyBombEffect: clear the 3x3 region around the
integer-averaged centroid of the blocks, and award 500 times the
multiplier.  The blocks themselves are not placed. -/
def applyBombEffect (s : Engine) (t : Tetrimino) : Engine :=
  let blocks := t.getBlocks
  if blocks.isEmpty then s
  else
    let centerX : Int := bombCenterX t
    let centerY : Int := bombCenterY t
    let region : List Position :=
      (List.range 3).flatMap (fun (dy : Nat) =>
        (List.range 3).map (fun (dx : Nat) =>
          ⟨centerX - 1 + (dx : Int), centerY - 1 + (dy : Int)⟩))
    let g' := region.foldl
      (fun g p => if isInBounds p then g.clearCell p else g) s.grid
    { s with grid := g', score := s.score + 500 * s.multiplier }

/-- Kotlin List.distinct(): keep the first occurrence of each value. -/
def distinctFirst (l : List Int) : List Int :=
  l.foldl (fun acc y => if y ∈ acc then acc else acc ++ [y]) []

/-- GameEngine.applyLineClearEffect: for each distinct row the piece
occupies, when in bounds, clear the row and shift the rows above it
down; award 200 per distinct row times the multiplier.  The blocks
themselves are not placed. -/
def applyLineClearEffect (s : Engine) (t : Tetrimino) : Engine :=
  let rows := distinctFirst (t.getBlocks.map Position.y)
  let g' := rows.foldl
    (fun g y =>
      if 0 ≤ y ∧ y < (gridHeight : Int) then
        (g.clearLine y.toNat).shiftLinesDown y.toNat
      else g)
    s.grid
  { s with grid := g',
           score := s.score + (rows.length * 200) * s.multiplier }

/-- Spec-side description of one clear-and-shift step at row y: the top
row becomes empty, every row with index 1..y receives the contents of
the row above it (the rows above the cleared row shift down), and every
row below y (index greater than y) is unchanged.  Stated on the cell
contents alone, to be compared with the code's clearLine followed by
shiftLinesDown. -/
def specRowShift (cells : Nat → Nat → Nat) (y : Nat) : Nat → Nat → Nat :=
  fun j x =>
    if j = 0 then 0 else if j ≤ y then cells (j - 1) x else cells j x

/-- GameEngine.checkMultiplierExpiration: once current time passes the
stored expiry, the multiplier resets to 1 and the clock clears. -/
def checkMultiplierExpirationE (s : Engine) (now : Int) : Engine :=
  if 0 < s.multiplierEndTime ∧ s.multiplierEndTime < now then
    { s with multiplier := 1, multiplierEndTime := 0 }
  else s

/-- GameEngine.updateScore: award the line-clear table value times the
current multiplier, then lazily check multiplier expiry. -/
def updateScoreE (s : Engine) (now : Int) (linesCleared : Nat) : Engine :=
  let basePoints :=
    match linesCleared with
    | 1 => 100
    | 2 => 300
    | 3 => 500
    | 4 => 800
    | _ => 0
  let points := basePoints * s.multiplier
  checkMultiplierExpirationE { s with score := s.score + points } now

/-- GameEngine.checkLevelUp: level rises to score / 2000 + 1 and never
falls. -/
def checkLevelUpE (s : Engine) : Engine :=
  let newLevel := s.score / 2000 + 1
  if s.level < newLevel then { s with level := newLevel } else s

/-- GameEngine.applyMultiplier: stack the orb multiplier onto the active
one and restart the 10 second expiry clock. -/
def applyMultiplierE (s : Engine) (orbMultiplier : Nat) (now : Int) :
    Engine :=
  { s with multiplier := s.multiplier * orbMultiplier,
           multiplierEndTime := now + 10000 }

/-- GameEngine.spawnTetrimino: promote the next piece (generating one if
absent), generate a new next piece, recompute the ghost, and enter
GameOver when the fresh current piece cannot be placed. -/
def spawnTetriminoE (s : Engine) (r1 r2 : PieceRand) : Engine :=
  let current := s.nextTetrimino.getD (generateRandomTetrimino s.level r1)
  let s1 := { s with
    currentTetrimino := some current,
    nextTetrimino := some (generateRandomTetrimino s.level r2) }
  let s2 := updateGhostPositionE s1
  if ¬ (s2.grid.canPlace current = true) then
    { s2 with gameState := GameStateE.GameOver }
  else s2

/-- Random draws consumed by one lock event. -/
structure LockRand where
  clearRand : OrbRand
  pieceRand1 : PieceRand
  pieceRand2 : PieceRand

/-- The placement step of lockTetrimino: resolve the power-up effect,
or place the piece normally. -/
def lockPlacePhase (s : Engine) (t : Tetrimino) : Engine :=
  match t.powerUp with
  | some PowerUpType.BOMB => applyBombEffect s t
  | some PowerUpType.LINE_CLEAR => applyLineClearEffect s t
  | _ => { s with grid := s.grid.place t }

/-- GameEngine.lockTetrimino: resolve the power-up effect (or place the
piece), clear lines, stack an orb multiplier when one was collected,
award the line-clear score, recompute the level, and spawn the next
piece. -/
def lockTetriminoE (s : Engine) (now : Int) (r : LockRand) : Engine :=
  match s.currentTetrimino with
  | none => s
  | some t =>
      let s1 := lockPlacePhase s t
      let cleared := s1.grid.clearLines r.clearRand
      let linesCleared := cleared.2.1
      let orbMultiplier := cleared.2.2
      let s2 := { s1 with grid := cleared.1 }
      let s3 :=
        if 0 < linesCleared ∧ 1 < orbMultiplier then
          applyMultiplierE s2 orbMultiplier now
        else s2
      let s4 := updateScoreE s3 now linesCleared
      let s5 := checkLevelUpE s4
      spawnTetriminoE s5 r.pieceRand1 r.pieceRand2

/-- GameEngine.moveDown: commit a valid downward move (true), else lock
the piece (false). -/
def moveDownE (s : Engine) (now : Int) (r : LockRand) : Engine × Bool :=
  match s.currentTetrimino with
  | none => (s, false)
  | some t =>
      let movedTetrimino := t.moveDown
      if isValidMove s.grid movedTetrimino then
        ({ s with currentTetrimino := some movedTetrimino }, true)
      else
        (lockTetriminoE s now r, false)

/-- GameEngine.hardDrop: move down while valid, then lock. -/
def hardDropE (s : Engine) (now : Int) (r : LockRand) : Engine :=
  match s.currentTetrimino with
  | none => s
  | some t =>
      lockTetriminoE { s with currentTetrimino := some (descend s.grid t) }
        now r

/-- GameEngine.pauseGame. -/
def pauseGameE (s : Engine) : Engine :=
  if s.gameState = GameStateE.Running then
    { s with gameState := GameStateE.Paused }
  else s

/-- GameEngine.resumeGame. -/
def resumeGameE (s : Engine) : Engine :=
  if s.gameState = GameStateE.Paused then
    { s with gameState := GameStateE.Running }
  else s

/-- GameEngine.startGame: reset the grid, score, multiplier, level and
expiry clock, spawn the first piece pair, and set the state to Running
(the next piece left over from a previous session is reused, as in the
source). -/
def startGameE (s : Engine) (r1 r2 : PieceRand) : Engine :=
  let s1 := { s with
    grid := s.grid.reset,
    score := 0,
    multiplier := 1,
    level := 1,
    multiplierEndTime := 0 }
  let s2 := spawnTetriminoE s1 r1 r2
  { s2 with gameState := GameStateE.Running }

/-- Engine states reachable within one session: a startGame call followed
by any sequence of player commands (ticks included). -/
inductive SessionReachable : Engine → Prop
  | start (s : Engine) (r1 r2 : PieceRand) :
      SessionReachable (startGameE s r1 r2)
  | moveLeft {s : Engine} :
      SessionReachable s → SessionReachable (moveLeftE s)
  | moveRight {s : Engine} :
      SessionReachable s → SessionReachable (moveRightE s)
  | rotate {s : Engine} :
      SessionReachable s → SessionReachable (rotateE s)
  | moveDown {s : Engine} (now : Int) (r : LockRand) :
      SessionReachable s → SessionReachable (moveDownE s now r).1
  | hardDrop {s : Engine} (now : Int) (r : LockRand) :
      SessionReachable s → SessionReachable (hardDropE s now r)
  | pause {s : Engine} :
      SessionReachable s → SessionReachable (pauseGameE s)
  | resume {s : Engine} :
      SessionReachable s → SessionReachable (resumeGameE s)

/-- No row of the grid is completely filled. -/
def noCompleteRow (g : GridState) : Bool :=
  (List.range gridHeight).all (fun y => !(g.isLineComplete y))

/-- The orb invariant of the grid: every resident orb sits on an empty
cell, orb positions are pairwise distinct, and every orb is inside the
grid below the top 4 rows. -/
def GridInv (g : GridState) : Prop :=
  (∀ o ∈ g.orbs, g.cells o.position.y.toNat o.position.x.toNat = 0) ∧
  List.Pairwise (fun a b : Orb => a.position ≠ b.position) g.orbs ∧
  (∀ o ∈ g.orbs, (4 : Int) ≤ o.position.y ∧ o.position.y < (gridHeight : Int)
    ∧ (0 : Int) ≤ o.position.x ∧ o.position.x < (gridWidth : Int))

/-- Every orb of the list lies inside the grid, below the top 4 rows. -/
def OrbsBounded (L : List Orb) : Prop :=
  ∀ o ∈ L, (4 : Int) ≤ o.position.y ∧ o.position.y < (gridHeight : Int)
    ∧ (0 : Int) ≤ o.position.x ∧ o.position.x < (gridWidth : Int)

/-- During the clearLines scan: every orb not yet scheduled for removal
sits on an empty cell. -/
def ActivesEmpty (g : GridState) (pending : List Orb) : Prop :=
  ∀ o ∈ g.orbs,
    o ∈ pending ∨ g.cells o.position.y.toNat o.position.x.toNat = 0

/-- During the scan: two orbs share a cell only if one of them is
scheduled for removal. -/
def ActivesDistinct (g : GridState) (pending : List Orb) : Prop :=
  List.Pairwise
    (fun a b : Orb => a.position = b.position → a ∈ pending ∨ b ∈ pending)
    g.orbs

/-- During the scan: every orb scheduled for removal sits at or below
the current scan row. -/
def PendingLow (pending : List Orb) (y : Nat) : Prop :=
  ∀ o ∈ pending, (y : Int) ≤ o.position.y

/-- The empty 10x20 grid. -/
def emptyGrid : GridState :=
  { cells := fun _ _ => 0, colorMap := [], nextColorIndex := 1, orbs := [] }

/-- A fresh engine before startGame. -/
def baseEngine : Engine :=
  { grid := emptyGrid, currentTetrimino := none, nextTetrimino := none,
    gameState := GameStateE.NotStarted, score := 0, multiplier := 1,
    level := 1, multiplierEndTime := 0, ghostPosition := none }

/-- A horizontal I piece flush against the left wall near the bottom. -/
def pieceAtLeftWall : Tetrimino := ⟨.I, ⟨0, 17⟩, 0, none⟩

/-- Engine holding the left-wall piece. -/
def engineLeftWall : Engine :=
  { baseEngine with currentTetrimino := some pieceAtLeftWall,
                    gameState := GameStateE.Running }

/-- A horizontal I piece flush against the right wall near the bottom:
its blocks occupy x 6..9, so a right move leaves the grid. -/
def pieceAtRightWall : Tetrimino := ⟨.I, ⟨6, 17⟩, 0, none⟩

/-- Engine holding the right-wall piece. -/
def engineRightWall : Engine :=
  { baseEngine with currentTetrimino := some pieceAtRightWall,
                    gameState := GameStateE.Running }

/-- A horizontal I piece at the spawn position. -/
def pieceCenter : Tetrimino := ⟨.I, ⟨4, 0⟩, 0, none⟩

/-- Engine holding the spawn-position piece. -/
def engineCenter : Engine :=
  { baseEngine with currentTetrimino := some pieceCenter,
                    gameState := GameStateE.Running }

/-- A BOMB T piece whose block centroid computes to (5, 10). -/
def bombPiece : Tetrimino := ⟨.T, ⟨4, 10⟩, 0, some .BOMB⟩

/-- A LINE_CLEAR I piece occupying exactly row 5. -/
def lineClearPiece : Tetrimino := ⟨.I, ⟨3, 4⟩, 0, some .LINE_CLEAR⟩

/-- A grid with marker cells at (x 0, y 6) and (x 0, y 7). -/
def stripedGrid : GridState :=
  { emptyGrid with cells := fun y x =>
      if y = 6 ∧ x = 0 then 1 else if y = 7 ∧ x = 0 then 2 else 0 }

/-- Engine over the striped grid. -/
def engineStriped : Engine := { baseEngine with grid := stripedGrid }

/-- A grid holding a single orb at (4, 10) on an empty cell. -/
def orbGrid : GridState :=
  { emptyGrid with orbs := [⟨⟨4, 10⟩, 2, .SMALL⟩] }

/-- An O piece covering the cell (4, 10) of orbGrid. -/
def oPieceOnOrb : Tetrimino := ⟨.O, ⟨4, 10⟩, 0, none⟩

/-- A fixed piece-generation draw whose power-up roll fails. -/
def samplePieceRand : PieceRand := ⟨0, 1, 0⟩

/-- The line-clear score table as the specification states it. -/
def specLineClearTable (linesCleared : Nat) : Nat :=
  if linesCleared = 0 then 0
  else if linesCleared = 1 then 100
  else if linesCleared = 2 then 300
  else if linesCleared = 3 then 500
  else if linesCleared = 4 then 800
  else 0

/-! ## Theorems -/

theorem checkMultiplierExpirationE_score (s : Engine) (now : Int) :
    (checkMultiplierExpirationE s now).score = s.score := by
  unfold checkMultiplierExpirationE
  split <;> rfl

/-- C3: the line-clear score awarded at lock time is the table value
{0: 0, 1: 100, 2: 300, 3: 500, 4: 800} times the current multiplier, and
any linesCleared value above 4 awards 0 (score unchanged). -/
theorem c3_line_clear_score (s : Engine) (now : Int) (n : Nat) :
    (updateScoreE s now n).score = s.score + specLineClearTable n * s.multiplier
    ∧ (4 < n → (updateScoreE s now n).score = s.score) := by
  constructor
  · unfold updateScoreE
    rw [checkMultiplierExpirationE_score]
    rcases n with _ | _ | _ | _ | _ | m <;> simp [specLineClearTable]
  · intro h
    unfold updateScoreE
    rw [checkMultiplierExpirationE_score]
    rcases n with _ | _ | _ | _ | _ | m
    · omega
    · omega
    · omega
    · omega
    · omega
    · simp

/-- Witness for C3 at linesCleared = 7. -/
theorem c3_witness :
    4 < 7 ∧ (updateScoreE baseEngine 0 7).score = baseEngine.score :=
  ⟨by omega, (c3_line_clear_score baseEngine 0 7).2 (by omega)⟩

/-- C9 counterexample: at level 1 the attachment probability is not the
5 percent base chance: the sample 11/200 = 0.055 is at least 0.05 and
still succeeds, because the chance at level 1 is 0.05 + 0.01 = 0.06. -/
theorem c9_counterexample :
    shouldGeneratePowerUp 1 (11/200) = true ∧ ¬ ((11 : ℚ)/200 < 5/100) := by
  constructor
  · simp only [shouldGeneratePowerUp, powerUpChance, decide_eq_true_eq]
    norm_num
  · norm_num

/-- C9 (amended): shouldGeneratePowerUp(level) succeeds exactly when the
sampled value is below min(0.05 + 0.01 * level, 0.15); at level 1 the
chance is 6 percent (base 5 percent plus the 1 percent level bonus), and
from level 10 on it is capped at 15 percent. -/
theorem c9_power_up_chance (level : Nat) (roll : ℚ) :
    (shouldGeneratePowerUp level roll = true ↔
      roll < min ((5 : ℚ)/100 + level * (1/100)) (15/100))
    ∧ powerUpChance 1 = 6/100
    ∧ (∀ l : Nat, 10 ≤ l → powerUpChance l = 15/100) := by
  refine ⟨?_, ?_, ?_⟩
  · simp [shouldGeneratePowerUp, powerUpChance]
  · norm_num [powerUpChance]
  · intro l hl
    unfold powerUpChance
    rw [min_eq_right]
    have : (10 : ℚ) ≤ (l : ℚ) := by exact_mod_cast hl
    nlinarith

/-- C7: a rejected moveLeft, moveRight or rotate is a strict no-op: the
entire engine state is unchanged. -/
theorem c7_rejected_command_noop (s : Engine) (t : Tetrimino)
    (hc : s.currentTetrimino = some t) :
    (isValidMove s.grid t.moveLeft = false → moveLeftE s = s)
    ∧ (isValidMove s.grid t.moveRight = false → moveRightE s = s)
    ∧ (isValidMove s.grid t.rotate = false → rotateE s = s) := by
  refine ⟨?_, ?_, ?_⟩
  · intro h
    unfold moveLeftE
    rw [hc]
    simp [h]
  · intro h
    unfold moveRightE
    rw [hc]
    simp [h]
  · intro h
    unfold rotateE
    rw [hc]
    simp [h]

/-- Witness for C7: an I piece flush against the left wall rejects the
left move and the rotation, an I piece flush against the right wall
rejects the right move, and each rejected command leaves the state
unchanged. -/
theorem c7_witness :
    isValidMove engineLeftWall.grid pieceAtLeftWall.moveLeft = false
    ∧ isValidMove engineRightWall.grid pieceAtRightWall.moveRight = false
    ∧ isValidMove engineLeftWall.grid pieceAtLeftWall.rotate = false
    ∧ moveLeftE engineLeftWall = engineLeftWall
    ∧ moveRightE engineRightWall = engineRightWall
    ∧ rotateE engineLeftWall = engineLeftWall :=
  ⟨by decide, by decide, by decide,
   (c7_rejected_command_noop engineLeftWall pieceAtLeftWall rfl).1 (by decide),
   (c7_rejected_command_noop engineRightWall pieceAtRightWall rfl).2.1
     (by decide),
   (c7_rejected_command_noop engineLeftWall pieceAtLeftWall rfl).2.2
     (by decide)⟩

theorem updateGhostPositionE_fields (s : Engine) :
    (updateGhostPositionE s).currentTetrimino = s.currentTetrimino
    ∧ (updateGhostPositionE s).grid = s.grid
    ∧ (updateGhostPositionE s).score = s.score
    ∧ (updateGhostPositionE s).level = s.level
    ∧ (updateGhostPositionE s).multiplier = s.multiplier
    ∧ (updateGhostPositionE s).nextTetrimino = s.nextTetrimino
    ∧ (updateGhostPositionE s).gameState = s.gameState := by
  unfold updateGhostPositionE
  cases s.currentTetrimino <;> simp

/-- moveRight after moveLeft restores the piece value. -/
theorem moveLeft_moveRight (t : Tetrimino) : t.moveLeft.moveRight = t := by
  obtain ⟨ty, ⟨px, py⟩, rot, pu⟩ := t
  simp [Tetrimino.moveLeft, Tetrimino.moveRight]

/-- C8: when both the left-shifted and the original positions are valid,
moveLeft then moveRight restores the current tetrimino (type, position,
rotation and power-up) and leaves the grid unchanged. -/
theorem c8_round_trip (s : Engine) (t : Tetrimino)
    (hc : s.currentTetrimino = some t)
    (hl : isValidMove s.grid t.moveLeft = true)
    (ht : isValidMove s.grid t = true) :
    (moveRightE (moveLeftE s)).currentTetrimino = s.currentTetrimino
    ∧ (moveRightE (moveLeftE s)).grid = s.grid := by
  have hstep : moveLeftE s =
      updateGhostPositionE { s with currentTetrimino := some t.moveLeft } := by
    unfold moveLeftE
    rw [hc]
    simp [hl]
  set s1 := updateGhostPositionE { s with currentTetrimino := some t.moveLeft }
    with hs1
  have hcur1 : s1.currentTetrimino = some t.moveLeft :=
    (updateGhostPositionE_fields _).1
  have hgrid1 : s1.grid = s.grid := (updateGhostPositionE_fields _).2.1
  have hstep2 : moveRightE s1 =
      updateGhostPositionE { s1 with currentTetrimino := some t } := by
    unfold moveRightE
    rw [hcur1]
    simp [moveLeft_moveRight, hgrid1, ht]
  rw [hstep, hstep2]
  constructor
  · rw [(updateGhostPositionE_fields _).1, hc]
  · rw [(updateGhostPositionE_fields _).2.1, hgrid1]

/-- Cells after folding conditional clearCell over a position list: a
cell is zeroed exactly when some in-bounds listed position hits it. -/
theorem foldClear_cells (l : List Position) (g : GridState) (y x : Nat) :
    (l.foldl (fun g p => if isInBounds p then g.clearCell p else g) g).cells y x
      = if l.any (fun p =>
            isInBounds p && ((y : Int) == p.y && (x : Int) == p.x)) then 0
        else g.cells y x := by
  induction l generalizing g with
  | nil => simp
  | cons p l ih =>
      rw [List.foldl_cons, ih]
      cases hb : isInBounds p with
      | true =>
          by_cases hm : ((y : Int) = p.y ∧ (x : Int) = p.x)
          · have hcell : ((g.clearCell p)).cells y x = 0 := by
              unfold GridState.clearCell
              rw [if_pos hb]
              simp [hm]
            simp [List.any_cons, hb, hm, hcell]
          · have hcell : ((g.clearCell p)).cells y x = g.cells y x := by
              unfold GridState.clearCell
              rw [if_pos hb]
              simp [hm]
            simp [List.any_cons, hb, hcell, hm]
      | false =>
          simp [List.any_cons, hb]

/-- C5: the BOMB effect clears exactly the 3x3 region centered on the
integer-averaged (truncated) centroid of the blocks, intersected with
the grid bounds; it adds 500 times the multiplier to the score; and it
never fills a cell (in particular it places none of the piece's own
blocks). -/
theorem c5_bomb_effect (s : Engine) (t : Tetrimino) (h : t.getBlocks ≠ []) :
    (applyBombEffect s t).score = s.score + 500 * s.multiplier
    ∧ (∀ y x : Nat,
        (applyBombEffect s t).grid.cells y x =
          if bombCenterX t - 1 ≤ (x : Int) ∧ (x : Int) ≤ bombCenterX t + 1
             ∧ bombCenterY t - 1 ≤ (y : Int) ∧ (y : Int) ≤ bombCenterY t + 1
             ∧ (x : Int) < (gridWidth : Int) ∧ (y : Int) < (gridHeight : Int)
          then 0 else s.grid.cells y x)
    ∧ (∀ y x : Nat, (applyBombEffect s t).grid.cells y x = 0
        ∨ (applyBombEffect s t).grid.cells y x = s.grid.cells y x) := by
  have hne : t.getBlocks.isEmpty = false := by
    cases hb : t.getBlocks.isEmpty with
    | true => exact absurd (List.isEmpty_iff.mp hb) h
    | false => rfl
  have hmain : ∀ y x : Nat,
      (applyBombEffect s t).grid.cells y x =
        if bombCenterX t - 1 ≤ (x : Int) ∧ (x : Int) ≤ bombCenterX t + 1
           ∧ bombCenterY t - 1 ≤ (y : Int) ∧ (y : Int) ≤ bombCenterY t + 1
           ∧ (x : Int) < (gridWidth : Int) ∧ (y : Int) < (gridHeight : Int)
        then 0 else s.grid.cells y x := by
    intro y x
    have hany : (((List.range 3).flatMap (fun (dy : Nat) =>
        (List.range 3).map (fun (dx : Nat) =>
          (⟨bombCenterX t - 1 + (dx : Int),
            bombCenterY t - 1 + (dy : Int)⟩ : Position)))).any
          (fun p =>
            isInBounds p && ((y : Int) == p.y && (x : Int) == p.x)) = true)
        ↔ (bombCenterX t - 1 ≤ (x : Int) ∧ (x : Int) ≤ bombCenterX t + 1
           ∧ bombCenterY t - 1 ≤ (y : Int) ∧ (y : Int) ≤ bombCenterY t + 1
           ∧ (x : Int) < (gridWidth : Int) ∧ (y : Int) < (gridHeight : Int)) := by
      rw [List.any_eq_true]
      constructor
      · rintro ⟨p, hp, hpred⟩
        rw [List.mem_flatMap] at hp
        obtain ⟨dy, hdy, hp⟩ := hp
        rw [List.mem_map] at hp
        obtain ⟨dx, hdx, rfl⟩ := hp
        rw [List.mem_range] at hdy hdx
        simp only [isInBounds, Bool.and_eq_true, decide_eq_true_eq,
          beq_iff_eq, gridWidth, gridHeight] at hpred ⊢
        omega
      · intro hB
        refine ⟨⟨(x : Int), (y : Int)⟩, ?_, ?_⟩
        · rw [List.mem_flatMap]
          refine ⟨((y : Int) - (bombCenterY t - 1)).toNat,
            by rw [List.mem_range]; omega, ?_⟩
          rw [List.mem_map]
          refine ⟨((x : Int) - (bombCenterX t - 1)).toNat,
            by rw [List.mem_range]; omega, ?_⟩
          rw [Position.mk.injEq]
          constructor <;> omega
        · simp only [isInBounds, Bool.and_eq_true, decide_eq_true_eq,
            beq_iff_eq, gridWidth, gridHeight, and_true, true_and] at hB ⊢
          omega
    unfold applyBombEffect
    rw [if_neg (by simp [hne])]
    simp only [foldClear_cells]
    by_cases hB : (bombCenterX t - 1 ≤ (x : Int) ∧ (x : Int) ≤ bombCenterX t + 1
        ∧ bombCenterY t - 1 ≤ (y : Int) ∧ (y : Int) ≤ bombCenterY t + 1
        ∧ (x : Int) < (gridWidth : Int) ∧ (y : Int) < (gridHeight : Int))
    · rw [if_pos (hany.mpr hB), if_pos hB]
    · rw [if_neg (fun hc => hB (hany.mp hc)), if_neg hB]
  refine ⟨?_, hmain, ?_⟩
  · unfold applyBombEffect
    rw [if_neg (by simp [hne])]
  · intro y x
    rw [hmain y x]
    split_ifs
    · exact Or.inl rfl
    · exact Or.inr rfl

/-- Witness for C5: the BOMB T piece at (4, 10) has centroid (5, 10), so
the cleared region is x in [4, 6], y in [9, 11]. -/
theorem c5_witness :
    bombPiece.getBlocks ≠ []
    ∧ bombCenterX bombPiece = 5 ∧ bombCenterY bombPiece = 10
    ∧ ((applyBombEffect baseEngine bombPiece).score
        = baseEngine.score + 500 * baseEngine.multiplier
      ∧ (∀ y x : Nat,
          (applyBombEffect baseEngine bombPiece).grid.cells y x =
            if bombCenterX bombPiece - 1 ≤ (x : Int)
               ∧ (x : Int) ≤ bombCenterX bombPiece + 1
               ∧ bombCenterY bombPiece - 1 ≤ (y : Int)
               ∧ (y : Int) ≤ bombCenterY bombPiece + 1
               ∧ (x : Int) < (gridWidth : Int)
               ∧ (y : Int) < (gridHeight : Int)
            then 0 else baseEngine.grid.cells y x)
      ∧ (∀ y x : Nat,
          (applyBombEffect baseEngine bombPiece).grid.cells y x = 0
          ∨ (applyBombEffect baseEngine bombPiece).grid.cells y x
              = baseEngine.grid.cells y x)) :=
  ⟨by decide, by decide, by decide,
   c5_bomb_effect baseEngine bombPiece (by decide)⟩

/-- Folding the conditional clear-and-shift of applyLineClearEffect never
fills a cell: afterwards every cell is either empty or holds a value that
was already present in the same column. -/
theorem foldShift_no_new (rows : List Int) (g : GridState) (j x : Nat) :
    ((rows.foldl (fun g y =>
        if 0 ≤ y ∧ y < (gridHeight : Int) then
          (g.clearLine y.toNat).shiftLinesDown y.toNat
        else g) g).cells j x = 0)
    ∨ ∃ i : Nat, (rows.foldl (fun g y =>
        if 0 ≤ y ∧ y < (gridHeight : Int) then
          (g.clearLine y.toNat).shiftLinesDown y.toNat
        else g) g).cells j x = g.cells i x := by
  induction rows generalizing g with
  | nil => exact Or.inr ⟨j, rfl⟩
  | cons r rows ih =>
      rw [List.foldl_cons]
      by_cases hg : (0 ≤ r ∧ r < (gridHeight : Int))
      · rw [if_pos hg]
        rcases ih ((g.clearLine r.toNat).shiftLinesDown r.toNat)
          with h0 | ⟨i, hi⟩
        · exact Or.inl h0
        · rw [clearShift_cells] at hi
          split_ifs at hi with h1 h2
          · exact Or.inl hi
          · exact Or.inr ⟨i - 1, hi⟩
          · exact Or.inr ⟨i, hi⟩
      · rw [if_neg hg]
        exact ih g

/-- The cell contents after folding the code's conditional clearLine and
shiftLinesDown over a row list equal the fold of the spec-side single
step specRowShift over the same rows. -/
theorem foldShift_cells (rows : List Int) (g : GridState) :
    (rows.foldl (fun g y =>
        if 0 ≤ y ∧ y < (gridHeight : Int) then
          (g.clearLine y.toNat).shiftLinesDown y.toNat
        else g) g).cells =
    rows.foldl (fun c y =>
        if 0 ≤ y ∧ y < (gridHeight : Int) then specRowShift c y.toNat
        else c) g.cells := by
  induction rows generalizing g with
  | nil => rfl
  | cons r rows ih =>
      rw [List.foldl_cons, List.foldl_cons]
      by_cases hg : (0 ≤ r ∧ r < (gridHeight : Int))
      · rw [if_pos hg, if_pos hg]
        have hst : ((g.clearLine r.toNat).shiftLinesDown r.toNat).cells
            = specRowShift g.cells r.toNat := by
          funext j x
          rw [clearShift_cells]
          rfl
        rw [ih ((g.clearLine r.toNat).shiftLinesDown r.toNat), hst]
      · rw [if_neg hg, if_neg hg]
        exact ih g

/-- A row lying below every in-bounds row of the list (strictly greater
index) is untouched by the fold of specRowShift. -/
theorem foldShift_high_unchanged (rows : List Int) (c : Nat → Nat → Nat)
    (j x : Nat)
    (hj : ∀ r ∈ rows, 0 ≤ r ∧ r < (gridHeight : Int) → r < (j : Int)) :
    (rows.foldl (fun c y =>
        if 0 ≤ y ∧ y < (gridHeight : Int) then specRowShift c y.toNat
        else c) c) j x = c j x := by
  induction rows generalizing c with
  | nil => rfl
  | cons r rows ih =>
      rw [List.foldl_cons]
      by_cases hg : (0 ≤ r ∧ r < (gridHeight : Int))
      · rw [if_pos hg]
        have hr : r < (j : Int) := hj r (List.mem_cons_self r rows) hg
        have hstep : specRowShift c r.toNat j x = c j x := by
          simp only [specRowShift]
          rw [if_neg (by omega), if_neg (by omega)]
        exact (ih (specRowShift c r.toNat)
          (fun a ha hb => hj a (List.mem_cons_of_mem r ha) hb)).trans hstep
      · rw [if_neg hg]
        exact ih c (fun a ha hb => hj a (List.mem_cons_of_mem r ha) hb)

/-- C6 counterexample: the LINE_CLEAR piece occupies exactly row 5 of a
grid marked at (x 0, y 6) and (x 0, y 7); the claim says rows below the
cleared row shift down by one (so row 7 would receive old row 6), but
the code leaves the rows below untouched. -/
theorem c6_counterexample :
    distinctFirst (lineClearPiece.getBlocks.map Position.y) = [(5 : Int)]
    ∧ (applyLineClearEffect engineStriped lineClearPiece).grid.cells 7 0
        ≠ engineStriped.grid.cells 6 0 := by
  constructor
  · decide
  · decide

/-- C6 (amended): for every LINE_CLEAR piece the effect awards 200 per
distinct occupied row times the multiplier; its cell contents equal the
fold, over the distinct occupied rows in order, of the spec-side step
specRowShift wherever the row is in bounds — so each cleared row y has
the rows above it shifted down by one (row 0 emptied, rows 1..y receive
the row above) while rows below y are untouched by that step; a row
below every cleared row keeps its exact contents; and no cell is ever
filled (the piece's own blocks are not placed). -/
theorem c6_line_clear_effect (s : Engine) (t : Tetrimino) :
    (applyLineClearEffect s t).score =
      s.score + ((distinctFirst (t.getBlocks.map Position.y)).length * 200)
        * s.multiplier
    ∧ (applyLineClearEffect s t).grid.cells =
        (distinctFirst (t.getBlocks.map Position.y)).foldl
          (fun c y =>
            if 0 ≤ y ∧ y < (gridHeight : Int) then specRowShift c y.toNat
            else c)
          s.grid.cells
    ∧ (∀ j x : Nat,
        (∀ r ∈ distinctFirst (t.getBlocks.map Position.y),
            0 ≤ r ∧ r < (gridHeight : Int) → r < (j : Int)) →
        (applyLineClearEffect s t).grid.cells j x = s.grid.cells j x)
    ∧ (∀ j x : Nat, (applyLineClearEffect s t).grid.cells j x = 0
        ∨ ∃ i : Nat, (applyLineClearEffect s t).grid.cells j x
            = s.grid.cells i x) := by
  refine ⟨rfl, ?_, ?_, ?_⟩
  · exact foldShift_cells (distinctFirst (t.getBlocks.map Position.y)) s.grid
  · intro j x hj
    have h1 := congrFun (congrFun
      (foldShift_cells (distinctFirst (t.getBlocks.map Position.y)) s.grid) j) x
    exact h1.trans (foldShift_high_unchanged
      (distinctFirst (t.getBlocks.map Position.y)) s.grid.cells j x hj)
  · intro j x
    exact foldShift_no_new (distinctFirst (t.getBlocks.map Position.y))
      s.grid j x

/-- Witness for C6 at the LINE_CLEAR piece occupying row 5 over the
striped grid: the score, the fold characterization, row 9 (below the
only cleared row) keeping its contents, and the no-new-fill property. -/
theorem c6_witness :
    (applyLineClearEffect engineStriped lineClearPiece).score =
      engineStriped.score
        + ((distinctFirst (lineClearPiece.getBlocks.map Position.y)).length
            * 200) * engineStriped.multiplier
    ∧ (applyLineClearEffect engineStriped lineClearPiece).grid.cells =
        (distinctFirst (lineClearPiece.getBlocks.map Position.y)).foldl
          (fun c y =>
            if 0 ≤ y ∧ y < (gridHeight : Int) then specRowShift c y.toNat
            else c)
          engineStriped.grid.cells
    ∧ ((∀ r ∈ distinctFirst (lineClearPiece.getBlocks.map Position.y),
          0 ≤ r ∧ r < (gridHeight : Int) → r < ((9 : Nat) : Int))
       ∧ (applyLineClearEffect engineStriped lineClearPiece).grid.cells 9 0
           = engineStriped.grid.cells 9 0)
    ∧ (∀ j x : Nat,
        (applyLineClearEffect engineStriped lineClearPiece).grid.cells j x = 0
        ∨ ∃ i : Nat,
            (applyLineClearEffect engineStriped lineClearPiece).grid.cells j x
              = engineStriped.grid.cells i x) :=
  ⟨(c6_line_clear_effect engineStriped lineClearPiece).1,
   (c6_line_clear_effect engineStriped lineClearPiece).2.1,
   ⟨by decide,
    (c6_line_clear_effect engineStriped lineClearPiece).2.2.1 9 0 (by decide)⟩,
   (c6_line_clear_effect engineStriped lineClearPiece).2.2.2⟩

/-- Iterating moveDown adds n to the y coordinate. -/
theorem iterate_moveDown_position (t : Tetrimino) (n : Nat) :
    (Tetrimino.moveDown^[n] t).position.y = t.position.y + n := by
  induction n generalizing t with
  | zero => simp
  | succ n ih =>
      rw [Function.iterate_succ_apply, ih]
      simp only [Tetrimino.moveDown]
      push_cast
      ring

/-- The descent loop stops at a finite iterate of moveDown whose next
step is invalid; a positive iterate is itself a valid position. -/
theorem descend_spec (g : GridState) (t : Tetrimino) :
    ∃ n : Nat, descend g t = Tetrimino.moveDown^[n] t
      ∧ isValidMove g ((descend g t).moveDown) = false
      ∧ (n = 0 ∨ isValidMove g (descend g t) = true) := by
  refine descend.induct g (fun t =>
    ∃ n : Nat, descend g t = Tetrimino.moveDown^[n] t
      ∧ isValidMove g ((descend g t).moveDown) = false
      ∧ (n = 0 ∨ isValidMove g (descend g t) = true)) ?_ ?_ t
  · intro t hvalid ih
    obtain ⟨n, heq, hlast, hval⟩ := ih
    refine ⟨n + 1, ?_, ?_, Or.inr ?_⟩
    · rw [descend, if_pos hvalid, heq, Function.iterate_succ_apply]
    · rw [descend, if_pos hvalid]
      exact hlast
    · rw [descend, if_pos hvalid]
      rcases hval with h0 | h
      · rw [heq, h0, Function.iterate_zero_apply]
        exact hvalid
      · exact h
  · intro t hvalid
    have hfalse : isValidMove g t.moveDown = false := by
      cases hb : isValidMove g t.moveDown with
      | true => exact absurd hb hvalid
      | false => rfl
    refine ⟨0, ?_, ?_, Or.inl rfl⟩
    · rw [descend, if_neg hvalid, Function.iterate_zero_apply]
    · rw [descend, if_neg hvalid]
      exact hfalse

/-- C10: for every tetrimino whose anchor starts at or below the top of
the grid, the shared descent loop of hardDrop and updateGhostPosition
terminates in at most gridHeight + 4 moveDown steps at a position whose
next downward move is invalid; every shape has at least one filled cell
and moveDown strictly increases y. -/
theorem c10_descent_terminates (g : GridState) (t : Tetrimino)
    (h : 0 ≤ t.position.y) :
    t.getBlocks ≠ []
    ∧ (t.moveDown).position.y = t.position.y + 1
    ∧ ∃ n : Nat, n ≤ gridHeight + 4
        ∧ descend g t = Tetrimino.moveDown^[n] t
        ∧ isValidMove g ((descend g t).moveDown) = false := by
  refine ⟨getBlocks_ne_nil t, rfl, ?_⟩
  obtain ⟨n, heq, hlast, hval⟩ := descend_spec g t
  refine ⟨n, ?_, heq, hlast⟩
  have h24 : gridHeight + 4 = 24 := rfl
  rcases hval with h0 | hv
  · omega
  · have hpos := position_lt_of_isValidMove g _ hv
    rw [heq, iterate_moveDown_position] at hpos
    have hg20 : (gridHeight : Int) = 20 := rfl
    rw [hg20] at hpos
    omega

/-- Witness for C10: the spawn-position I piece over the empty grid. -/
theorem c10_witness :
    0 ≤ pieceCenter.position.y
    ∧ (pieceCenter.getBlocks ≠ []
       ∧ pieceCenter.moveDown.position.y = pieceCenter.position.y + 1
       ∧ ∃ n : Nat, n ≤ gridHeight + 4
           ∧ descend emptyGrid pieceCenter = Tetrimino.moveDown^[n] pieceCenter
           ∧ isValidMove emptyGrid ((descend emptyGrid pieceCenter).moveDown)
               = false) :=
  ⟨by decide, c10_descent_terminates emptyGrid pieceCenter (by decide)⟩

theorem checkMultiplierExpirationE_level (s : Engine) (now : Int) :
    (checkMultiplierExpirationE s now).level = s.level := by
  unfold checkMultiplierExpirationE
  split <;> rfl

theorem spawnTetriminoE_score (s : Engine) (r1 r2 : PieceRand) :
    (spawnTetriminoE s r1 r2).score = s.score := by
  simp only [spawnTetriminoE]
  split
  · exact (updateGhostPositionE_fields _).2.2.1
  · exact (updateGhostPositionE_fields _).2.2.1

theorem spawnTetriminoE_level (s : Engine) (r1 r2 : PieceRand) :
    (spawnTetriminoE s r1 r2).level = s.level := by
  simp only [spawnTetriminoE]
  split
  · exact (updateGhostPositionE_fields _).2.2.2.1
  · exact (updateGhostPositionE_fields _).2.2.2.1

theorem checkLevelUpE_score (s : Engine) :
    (checkLevelUpE s).score = s.score := by
  simp only [checkLevelUpE]
  split <;> rfl

theorem checkLevelUpE_level_ge (s : Engine) :
    s.level ≤ (checkLevelUpE s).level := by
  simp only [checkLevelUpE]
  split_ifs with h
  · show s.level ≤ s.score / 2000 + 1
    omega
  · exact le_refl _

theorem checkLevelUpE_inv (s : Engine) (h : s.level ≤ s.score / 2000 + 1) :
    (checkLevelUpE s).level = s.score / 2000 + 1 := by
  simp only [checkLevelUpE]
  split_ifs with hlt
  · rfl
  · show s.level = s.score / 2000 + 1
    omega

theorem updateScoreE_level (s : Engine) (now : Int) (n : Nat) :
    (updateScoreE s now n).level = s.level := by
  unfold updateScoreE
  exact checkMultiplierExpirationE_level _ _

theorem updateScoreE_score_ge (s : Engine) (now : Int) (n : Nat) :
    s.score ≤ (updateScoreE s now n).score := by
  simp only [updateScoreE]
  rw [checkMultiplierExpirationE_score]
  exact Nat.le_add_right _ _

theorem applyBombEffect_level (s : Engine) (t : Tetrimino) :
    (applyBombEffect s t).level = s.level := by
  simp only [applyBombEffect]
  split <;> rfl

theorem applyBombEffect_score_ge (s : Engine) (t : Tetrimino) :
    s.score ≤ (applyBombEffect s t).score := by
  simp only [applyBombEffect]
  split
  · exact le_refl _
  · exact Nat.le_add_right _ _

theorem applyLineClearEffect_level (s : Engine) (t : Tetrimino) :
    (applyLineClearEffect s t).level = s.level := rfl

theorem applyLineClearEffect_score_ge (s : Engine) (t : Tetrimino) :
    s.score ≤ (applyLineClearEffect s t).score :=
  Nat.le_add_right _ _

theorem applyMultiplierE_level (s : Engine) (m : Nat) (now : Int) :
    (applyMultiplierE s m now).level = s.level := rfl

theorem applyMultiplierE_score (s : Engine) (m : Nat) (now : Int) :
    (applyMultiplierE s m now).score = s.score := rfl

/-- The tail of the lock sequence (multiplier stacking, scoring, level
recomputation, spawning) re-establishes level = score / 2000 + 1. -/
theorem lockTail_inv (s2 : Engine) (now : Int) (lines orbm : Nat)
    (r1 r2 : PieceRand) (h : s2.level ≤ s2.score / 2000 + 1) :
    (spawnTetriminoE (checkLevelUpE (updateScoreE
        (if 0 < lines ∧ 1 < orbm then applyMultiplierE s2 orbm now else s2)
        now lines)) r1 r2).level
      = (spawnTetriminoE (checkLevelUpE (updateScoreE
        (if 0 < lines ∧ 1 < orbm then applyMultiplierE s2 orbm now else s2)
        now lines)) r1 r2).score / 2000 + 1 := by
  set s3 := if 0 < lines ∧ 1 < orbm then applyMultiplierE s2 orbm now else s2
    with hs3
  have h3 : s3.level ≤ s3.score / 2000 + 1 := by
    rw [hs3]
    split_ifs
    · rw [applyMultiplierE_level, applyMultiplierE_score]
      exact h
    · exact h
  rw [spawnTetriminoE_level, spawnTetriminoE_score, checkLevelUpE_score]
  apply checkLevelUpE_inv
  rw [updateScoreE_level]
  have hge := updateScoreE_score_ge s3 now lines
  have hdiv : s3.score / 2000 ≤ (updateScoreE s3 now lines).score / 2000 :=
    Nat.div_le_div_right hge
  omega

/-- The tail of the lock sequence never decreases the level. -/
theorem lockTail_level_ge (s2 : Engine) (now : Int) (lines orbm : Nat)
    (r1 r2 : PieceRand) :
    s2.level ≤ (spawnTetriminoE (checkLevelUpE (updateScoreE
        (if 0 < lines ∧ 1 < orbm then applyMultiplierE s2 orbm now else s2)
        now lines)) r1 r2).level := by
  set s3 := if 0 < lines ∧ 1 < orbm then applyMultiplierE s2 orbm now else s2
    with hs3
  have h3 : s3.level = s2.level := by
    rw [hs3]
    split_ifs
    · rw [applyMultiplierE_level]
    · rfl
  rw [spawnTetriminoE_level]
  calc s2.level = (updateScoreE s3 now lines).level := by
        rw [updateScoreE_level, h3]
    _ ≤ (checkLevelUpE (updateScoreE s3 now lines)).level :=
        checkLevelUpE_level_ge _

/-- The placement phase keeps the level and never decreases the score. -/
theorem lockPlacePhase_level (s : Engine) (t : Tetrimino) :
    (lockPlacePhase s t).level = s.level := by
  unfold lockPlacePhase
  rcases t.powerUp with _ | pu
  · rfl
  · cases pu
    · exact applyBombEffect_level s t
    · exact applyLineClearEffect_level s t
    · rfl

theorem lockPlacePhase_score_ge (s : Engine) (t : Tetrimino) :
    s.score ≤ (lockPlacePhase s t).score := by
  unfold lockPlacePhase
  rcases t.powerUp with _ | pu
  · exact le_refl _
  · cases pu
    · exact applyBombEffect_score_ge s t
    · exact applyLineClearEffect_score_ge s t
    · exact le_refl _

/-- lockTetrimino re-establishes the level invariant. -/
theorem lockTetriminoE_inv (s : Engine) (now : Int) (r : LockRand)
    (h : s.level = s.score / 2000 + 1) :
    (lockTetriminoE s now r).level
      = (lockTetriminoE s now r).score / 2000 + 1 := by
  cases hc : s.currentTetrimino with
  | none => simp only [lockTetriminoE, hc]; exact h
  | some t =>
      simp only [lockTetriminoE, hc]
      refine lockTail_inv _ now _ _ _ _ ?_
      exact le_trans (le_of_eq ((lockPlacePhase_level s t).trans h))
        (Nat.add_le_add_right
          (Nat.div_le_div_right (lockPlacePhase_score_ge s t)) 1)

/-- lockTetrimino never decreases the level. -/
theorem lockTetriminoE_level_ge (s : Engine) (now : Int) (r : LockRand) :
    s.level ≤ (lockTetriminoE s now r).level := by
  cases hc : s.currentTetrimino with
  | none => simp only [lockTetriminoE, hc]; exact le_refl _
  | some t =>
      simp only [lockTetriminoE, hc]
      exact le_trans (le_of_eq (lockPlacePhase_level s t).symm)
        (lockTail_level_ge
          { lockPlacePhase s t with
              grid := ((lockPlacePhase s t).grid.clearLines r.clearRand).1 }
          now _ _ _ _)

theorem moveLeftE_level_score (s : Engine) :
    (moveLeftE s).level = s.level ∧ (moveLeftE s).score = s.score := by
  cases hc : s.currentTetrimino with
  | none => simp only [moveLeftE, hc]; trivial
  | some t =>
      simp only [moveLeftE, hc]
      split_ifs with hv
      · exact ⟨(updateGhostPositionE_fields _).2.2.2.1,
          (updateGhostPositionE_fields _).2.2.1⟩
      · exact ⟨rfl, rfl⟩

theorem moveRightE_level_score (s : Engine) :
    (moveRightE s).level = s.level ∧ (moveRightE s).score = s.score := by
  cases hc : s.currentTetrimino with
  | none => simp only [moveRightE, hc]; trivial
  | some t =>
      simp only [moveRightE, hc]
      split_ifs with hv
      · exact ⟨(updateGhostPositionE_fields _).2.2.2.1,
          (updateGhostPositionE_fields _).2.2.1⟩
      · exact ⟨rfl, rfl⟩

theorem rotateE_level_score (s : Engine) :
    (rotateE s).level = s.level ∧ (rotateE s).score = s.score := by
  cases hc : s.currentTetrimino with
  | none => simp only [rotateE, hc]; trivial
  | some t =>
      simp only [rotateE, hc]
      split_ifs with hv
      · exact ⟨(updateGhostPositionE_fields _).2.2.2.1,
          (updateGhostPositionE_fields _).2.2.1⟩
      · exact ⟨rfl, rfl⟩

theorem pauseGameE_level_score (s : Engine) :
    (pauseGameE s).level = s.level ∧ (pauseGameE s).score = s.score := by
  unfold pauseGameE
  split <;> exact ⟨rfl, rfl⟩

theorem resumeGameE_level_score (s : Engine) :
    (resumeGameE s).level = s.level ∧ (resumeGameE s).score = s.score := by
  unfold resumeGameE
  split <;> exact ⟨rfl, rfl⟩

theorem moveDownE_inv (s : Engine) (now : Int) (r : LockRand)
    (h : s.level = s.score / 2000 + 1) :
    (moveDownE s now r).1.level = (moveDownE s now r).1.score / 2000 + 1 := by
  cases hc : s.currentTetrimino with
  | none => simp only [moveDownE, hc]; exact h
  | some t =>
      simp only [moveDownE, hc]
      split_ifs with hv
      · exact h
      · exact lockTetriminoE_inv s now r h

theorem moveDownE_level_ge (s : Engine) (now : Int) (r : LockRand) :
    s.level ≤ (moveDownE s now r).1.level := by
  cases hc : s.currentTetrimino with
  | none => simp only [moveDownE, hc]; exact le_refl _
  | some t =>
      simp only [moveDownE, hc]
      split_ifs with hv
      · exact le_refl _
      · exact lockTetriminoE_level_ge s now r

theorem hardDropE_inv (s : Engine) (now : Int) (r : LockRand)
    (h : s.level = s.score / 2000 + 1) :
    (hardDropE s now r).level = (hardDropE s now r).score / 2000 + 1 := by
  cases hc : s.currentTetrimino with
  | none => simp only [hardDropE, hc]; exact h
  | some t =>
      simp only [hardDropE, hc]
      exact lockTetriminoE_inv _ now r h

theorem hardDropE_level_ge (s : Engine) (now : Int) (r : LockRand) :
    s.level ≤ (hardDropE s now r).level := by
  cases hc : s.currentTetrimino with
  | none => simp only [hardDropE, hc]; exact le_refl _
  | some t =>
      simp only [hardDropE, hc]
      exact lockTetriminoE_level_ge
        { s with currentTetrimino := some (descend s.grid t) } now r

theorem startGameE_level_score (s : Engine) (r1 r2 : PieceRand) :
    (startGameE s r1 r2).level = 1 ∧ (startGameE s r1 r2).score = 0 := by
  simp only [startGameE]
  exact ⟨spawnTetriminoE_level _ r1 r2, spawnTetriminoE_score _ r1 r2⟩

/-- Every state reachable within a session satisfies the level
invariant. -/
theorem sessionReachable_level_inv (s : Engine) (h : SessionReachable s) :
    s.level = s.score / 2000 + 1 := by
  induction h with
  | start s0 r1 r2 =>
      rw [(startGameE_level_score s0 r1 r2).1,
        (startGameE_level_score s0 r1 r2).2]
  | moveLeft _ ih =>
      rw [(moveLeftE_level_score _).1, (moveLeftE_level_score _).2]
      exact ih
  | moveRight _ ih =>
      rw [(moveRightE_level_score _).1, (moveRightE_level_score _).2]
      exact ih
  | rotate _ ih =>
      rw [(rotateE_level_score _).1, (rotateE_level_score _).2]
      exact ih
  | moveDown now r _ ih => exact moveDownE_inv _ now r ih
  | hardDrop now r _ ih => exact hardDropE_inv _ now r ih
  | pause _ ih =>
      rw [(pauseGameE_level_score _).1, (pauseGameE_level_score _).2]
      exact ih
  | resume _ ih =>
      rw [(resumeGameE_level_score _).1, (resumeGameE_level_score _).2]
      exact ih

/-- C4: in every state reachable within a session (between startGame
calls), level = floor(score / 2000) + 1, and no command ever decreases
the level. -/
theorem c4_level_invariant (s : Engine) (h : SessionReachable s) :
    s.level = s.score / 2000 + 1
    ∧ (∀ (now : Int) (r : LockRand),
        s.level ≤ (moveDownE s now r).1.level
        ∧ s.level ≤ (hardDropE s now r).level)
    ∧ s.level ≤ (moveLeftE s).level
    ∧ s.level ≤ (moveRightE s).level
    ∧ s.level ≤ (rotateE s).level
    ∧ s.level ≤ (pauseGameE s).level
    ∧ s.level ≤ (resumeGameE s).level := by
  refine ⟨sessionReachable_level_inv s h, ?_, ?_, ?_, ?_, ?_, ?_⟩
  · intro now r
    exact ⟨moveDownE_level_ge s now r, hardDropE_level_ge s now r⟩
  · rw [(moveLeftE_level_score s).1]
  · rw [(moveRightE_level_score s).1]
  · rw [(rotateE_level_score s).1]
  · rw [(pauseGameE_level_score s).1]
  · rw [(resumeGameE_level_score s).1]

/-- Witness for C4: the state right after starting a game from the fresh
engine is session-reachable and satisfies the invariant. -/
theorem c4_witness :
    SessionReachable (startGameE baseEngine samplePieceRand samplePieceRand)
    ∧ ((startGameE baseEngine samplePieceRand samplePieceRand).level
        = (startGameE baseEngine samplePieceRand samplePieceRand).score / 2000
          + 1
      ∧ (∀ (now : Int) (r : LockRand),
          (startGameE baseEngine samplePieceRand samplePieceRand).level
            ≤ (moveDownE (startGameE baseEngine samplePieceRand
                samplePieceRand) now r).1.level
          ∧ (startGameE baseEngine samplePieceRand samplePieceRand).level
            ≤ (hardDropE (startGameE baseEngine samplePieceRand
                samplePieceRand) now r).level)
      ∧ (startGameE baseEngine samplePieceRand samplePieceRand).level
          ≤ (moveLeftE (startGameE baseEngine samplePieceRand
              samplePieceRand)).level
      ∧ (startGameE baseEngine samplePieceRand samplePieceRand).level
          ≤ (moveRightE (startGameE baseEngine samplePieceRand
              samplePieceRand)).level
      ∧ (startGameE baseEngine samplePieceRand samplePieceRand).level
          ≤ (rotateE (startGameE baseEngine samplePieceRand
              samplePieceRand)).level
      ∧ (startGameE baseEngine samplePieceRand samplePieceRand).level
          ≤ (pauseGameE (startGameE baseEngine samplePieceRand
              samplePieceRand)).level
      ∧ (startGameE baseEngine samplePieceRand samplePieceRand).level
          ≤ (resumeGameE (startGameE baseEngine samplePieceRand
              samplePieceRand)).level) :=
  ⟨SessionReachable.start baseEngine samplePieceRand samplePieceRand,
   c4_level_invariant _
     (SessionReachable.start baseEngine samplePieceRand samplePieceRand)⟩

/-- Line completeness only depends on the row contents. -/
theorem isLineComplete_congr (g1 g2 : GridState) (j1 j2 : Nat)
    (h : ∀ x, x < gridWidth → g1.cells j1 x = g2.cells j2 x) :
    g1.isLineComplete j1 = g2.isLineComplete j2 := by
  cases hb : g2.isLineComplete j2 with
  | true =>
      rw [isLineComplete_iff] at hb ⊢
      intro x hx
      rw [h x hx]
      exact hb x hx
  | false =>
      cases ha : g1.isLineComplete j1 with
      | false => rfl
      | true =>
          exfalso
          rw [isLineComplete_iff] at ha
          have h2 : g2.isLineComplete j2 = true := by
            rw [isLineComplete_iff]
            intro x hx
            rw [← h x hx]
            exact ha x hx
          rw [h2] at hb
          cases hb

/-- Rows strictly below the cleared row are untouched by a clear and
shift. -/
theorem isLineComplete_clearShift_high (g : GridState) (y j : Nat)
    (hj : y < j) :
    ((g.clearLine y).shiftLinesDown y).isLineComplete j
      = g.isLineComplete j := by
  apply isLineComplete_congr
  intro x hx
  rw [clearShift_cells]
  rw [if_neg (by omega), if_neg (by omega)]

/-- After the scan, no row of the grid is complete: rows already passed
are never modified again, and a cleared index is re-examined. -/
theorem clearLinesLoop_no_complete :
    ∀ (g : GridState) (pending : List Orb) (lines mult y : Nat)
      (hy : y < gridHeight),
      (∀ j, y < j → j < gridHeight → g.isLineComplete j = false) →
      ∀ j, j < gridHeight →
        (clearLinesLoop g pending lines mult y hy).1.isLineComplete j
          = false := by
  refine clearLinesLoop.induct
    (fun g pending lines mult y hy =>
      (∀ j, y < j → j < gridHeight → g.isLineComplete j = false) →
      ∀ j, j < gridHeight →
        (clearLinesLoop g pending lines mult y hy).1.isLineComplete j
          = false)
    ?_ ?_ ?_
  · intro g pending lines mult y hy hc rowOrbs mult2 pending2 g2 ih hinv j hj
    rw [clearLinesLoop.eq_def, dif_pos hc]
    exact ih (fun j1 hyj hj1 => by
      rw [isLineComplete_clearShift_high g y j1 hyj]
      exact hinv j1 hyj hj1) j hj
  · intro g pending lines mult hy hc hinv j hj
    rw [clearLinesLoop.eq_def, dif_neg hc, dif_pos rfl]
    rcases Nat.eq_zero_or_pos j with h0 | hpos
    · subst h0
      cases hb : g.isLineComplete 0 with
      | true => exact absurd hb hc
      | false => rfl
    · exact hinv j hpos hj
  · intro g pending lines mult y hy hc hy0 ih hinv j hj
    rw [clearLinesLoop.eq_def, dif_neg hc, dif_neg hy0]
    refine ih ?_ j hj
    intro j1 hyj hj1
    rcases Nat.lt_or_ge y j1 with hgt | hle
    · exact hinv j1 hgt hj1
    · have heq : j1 = y := by omega
      subst heq
      cases hb : g.isLineComplete j1 with
      | true => exact absurd hb hc
      | false => rfl

/-- On a grid with no complete rows, the scan clears no lines. -/
theorem clearLinesLoop_lines :
    ∀ (g : GridState) (pending : List Orb) (lines mult y : Nat)
      (hy : y < gridHeight),
      (∀ j, j < gridHeight → g.isLineComplete j = false) →
      (clearLinesLoop g pending lines mult y hy).2.2.1 = lines := by
  refine clearLinesLoop.induct
    (fun g pending lines mult y hy =>
      (∀ j, j < gridHeight → g.isLineComplete j = false) →
      (clearLinesLoop g pending lines mult y hy).2.2.1 = lines)
    ?_ ?_ ?_
  · intro g pending lines mult y hy hc rowOrbs mult2 pending2 g2 ih hinv
    rw [hinv y hy] at hc
    cases hc
  · intro g pending lines mult hy hc hinv
    rw [clearLinesLoop.eq_def, dif_neg hc, dif_pos rfl]
  · intro g pending lines mult y hy hc hy0 ih hinv
    rw [clearLinesLoop.eq_def, dif_neg hc, dif_neg hy0]
    exact ih hinv

/-- trySpawnOrb never touches the cells. -/
theorem trySpawnOrb_cells (g : GridState) (r : OrbRand) :
    (g.trySpawnOrb r).cells = g.cells := by
  simp only [GridState.trySpawnOrb]
  split
  · rfl
  · split <;> rfl

/-- The cells of the grid returned by clearLines are the cells left by
the scan (orb removal and spawning do not touch cells). -/
theorem clearLines_cells (g : GridState) (r : OrbRand) :
    (g.clearLines r).1.cells
      = (clearLinesLoop g [] 0 1 (gridHeight - 1)
          (by norm_num [gridHeight])).1.cells := by
  simp only [GridState.clearLines]
  split_ifs <;> first
    | rw [trySpawnOrb_cells]
    | rfl

/-- The number of lines reported by clearLines is the scan count. -/
theorem clearLines_lines (g : GridState) (r : OrbRand) :
    (g.clearLines r).2.1
      = (clearLinesLoop g [] 0 1 (gridHeight - 1)
          (by norm_num [gridHeight])).2.2.1 := by
  simp only [GridState.clearLines]

/-- C1: after any clearLines call, from any grid state, no row is
completely filled, and an immediately repeated call (with any random
draws) clears zero lines. -/
theorem c1_clear_lines_postcondition (g : GridState) (r : OrbRand) :
    noCompleteRow (g.clearLines r).1 = true
    ∧ ∀ r2 : OrbRand, ((g.clearLines r).1.clearLines r2).2.1 = 0 := by
  have hmain : ∀ j, j < gridHeight →
      (g.clearLines r).1.isLineComplete j = false := by
    intro j hj
    have hcong : (g.clearLines r).1.isLineComplete j
        = (clearLinesLoop g [] 0 1 (gridHeight - 1)
            (by norm_num [gridHeight])).1.isLineComplete j := by
      apply isLineComplete_congr
      intro x hx
      rw [clearLines_cells]
    rw [hcong]
    exact clearLinesLoop_no_complete g [] 0 1 (gridHeight - 1) _
      (fun j1 h1 h2 => absurd (by omega : j1 < gridHeight) (by omega)) j hj
  constructor
  · rw [noCompleteRow, List.all_eq_true]
    intro j hjmem
    rw [List.mem_range] at hjmem
    rw [hmain j hjmem]
    rfl
  · intro r2
    rw [clearLines_lines]
    exact clearLinesLoop_lines _ [] 0 1 (gridHeight - 1) _ hmain

theorem step_orbsBounded (g : GridState) (y : Nat) (hy : y < gridHeight)
    (hb : OrbsBounded g.orbs) :
    OrbsBounded ((g.clearLine y).shiftLinesDown y).orbs := by
  rw [clearShift_orbs]
  intro o2 ho2
  rw [List.mem_map] at ho2
  obtain ⟨o, ho, rfl⟩ := ho2
  obtain ⟨h1, h2, h3, h4⟩ := hb o ho
  have hg20 : (gridHeight : Int) = 20 := rfl
  have hyi : (y : Int) < 20 := by omega
  by_cases hlt : o.position.y < (y : Int)
  · simp only [if_pos hlt]
    refine ⟨by omega, by omega, h3, h4⟩
  · simp only [if_neg hlt]
    exact ⟨h1, h2, h3, h4⟩

theorem step_activesEmpty (g : GridState) (pending : List Orb) (y : Nat)
    (hb : OrbsBounded g.orbs)
    (he : ActivesEmpty g pending) (hp : PendingLow pending y) :
    ActivesEmpty ((g.clearLine y).shiftLinesDown y)
      (pending ++ g.orbs.filter (fun o => o.position.y == (y : Int))) := by
  intro o2 ho2
  have ho2' := ho2
  rw [clearShift_orbs, List.mem_map] at ho2'
  obtain ⟨o, ho, rfl⟩ := ho2'
  obtain ⟨hb1, hb2, hb3, hb4⟩ := hb o ho
  by_cases hlt : o.position.y < (y : Int)
  · have hop : o ∉ pending := fun hmem => absurd (hp o hmem) (by omega)
    have hcell : g.cells o.position.y.toNat o.position.x.toNat = 0 :=
      (he o ho).resolve_left hop
    simp only [if_pos hlt]
    right
    rw [clearShift_cells, if_neg (by omega), if_pos (by omega)]
    have harith : ((o.position.y + 1).toNat - 1) = o.position.y.toNat := by
      omega
    rw [harith]
    exact hcell
  · simp only [if_neg hlt]
    by_cases hyeq : o.position.y = (y : Int)
    · left
      apply List.mem_append_right
      rw [List.mem_filter]
      exact ⟨ho, by simp [hyeq]⟩
    · rcases he o ho with hmem | hcell
      · exact Or.inl (List.mem_append_left _ hmem)
      · right
        rw [clearShift_cells, if_neg (by omega), if_neg (by omega)]
        exact hcell

theorem step_activesDistinct (g : GridState) (pending : List Orb) (y : Nat)
    (hd : ActivesDistinct g pending)
    (hp : PendingLow pending y) :
    ActivesDistinct ((g.clearLine y).shiftLinesDown y)
      (pending ++ g.orbs.filter (fun o => o.position.y == (y : Int))) := by
  unfold ActivesDistinct at hd ⊢
  rw [clearShift_orbs, List.pairwise_map]
  refine hd.imp_of_mem ?_
  intro a b ha hb hR hpos
  by_cases ha' : a.position.y < (y : Int) <;>
    by_cases hb' : b.position.y < (y : Int)
  · simp only [if_pos ha', if_pos hb'] at hpos ⊢
    have hab : a.position = b.position := by
      have hx := congrArg Position.x hpos
      have hyy := congrArg Position.y hpos
      dsimp only at hx hyy
      have hy2 : a.position.y = b.position.y := by omega
      calc a.position = ⟨a.position.x, a.position.y⟩ := rfl
        _ = ⟨b.position.x, b.position.y⟩ := by rw [hx, hy2]
        _ = b.position := rfl
    rcases hR hab with hm | hm
    · exact absurd (hp a hm) (by omega)
    · exact absurd (hp b hm) (by omega)
  · simp only [if_pos ha', if_neg hb'] at hpos ⊢
    right
    apply List.mem_append_right
    rw [List.mem_filter]
    refine ⟨hb, ?_⟩
    have hby : b.position.y = a.position.y + 1 := by
      rw [← hpos]
    simp only [beq_iff_eq]
    omega
  · simp only [if_neg ha', if_pos hb'] at hpos ⊢
    left
    apply List.mem_append_right
    rw [List.mem_filter]
    refine ⟨ha, ?_⟩
    have hay : a.position.y = b.position.y + 1 := by
      rw [hpos]
    simp only [beq_iff_eq]
    omega
  · simp only [if_neg ha', if_neg hb'] at hpos ⊢
    rcases hR hpos with hm | hm
    · exact Or.inl (List.mem_append_left _ hm)
    · exact Or.inr (List.mem_append_left _ hm)

theorem step_pendingLow (g : GridState) (pending : List Orb) (y : Nat)
    (hp : PendingLow pending y) :
    PendingLow
      (pending ++ g.orbs.filter (fun o => o.position.y == (y : Int))) y := by
  intro o ho
  rcases List.mem_append.mp ho with h | h
  · exact hp o h
  · rw [List.mem_filter] at h
    have h2 := h.2
    simp only [beq_iff_eq] at h2
    omega

/-- The scan preserves the orb invariants: orbs stay in bounds, active
orbs stay on empty cells, and any two orbs on the same cell include a
pending one. -/
theorem clearLinesLoop_orb_inv :
    ∀ (g : GridState) (pending : List Orb) (lines mult y : Nat)
      (hy : y < gridHeight),
      OrbsBounded g.orbs → ActivesEmpty g pending →
      ActivesDistinct g pending → PendingLow pending y →
      OrbsBounded (clearLinesLoop g pending lines mult y hy).1.orbs
      ∧ ActivesEmpty (clearLinesLoop g pending lines mult y hy).1
          (clearLinesLoop g pending lines mult y hy).2.1
      ∧ ActivesDistinct (clearLinesLoop g pending lines mult y hy).1
          (clearLinesLoop g pending lines mult y hy).2.1 := by
  refine clearLinesLoop.induct
    (fun g pending lines mult y hy =>
      OrbsBounded g.orbs → ActivesEmpty g pending →
      ActivesDistinct g pending → PendingLow pending y →
      OrbsBounded (clearLinesLoop g pending lines mult y hy).1.orbs
      ∧ ActivesEmpty (clearLinesLoop g pending lines mult y hy).1
          (clearLinesLoop g pending lines mult y hy).2.1
      ∧ ActivesDistinct (clearLinesLoop g pending lines mult y hy).1
          (clearLinesLoop g pending lines mult y hy).2.1)
    ?_ ?_ ?_
  · intro g pending lines mult y hy hc rowOrbs mult2 pending2 g2 ih
      hb he hd hp
    rw [clearLinesLoop.eq_def, dif_pos hc]
    exact ih (step_orbsBounded g y hy hb)
      (step_activesEmpty g pending y hb he hp)
      (step_activesDistinct g pending y hd hp)
      (step_pendingLow g pending y hp)
  · intro g pending lines mult hy hc hb he hd hp
    rw [clearLinesLoop.eq_def, dif_neg hc, dif_pos rfl]
    exact ⟨hb, he, hd⟩
  · intro g pending lines mult y hy hc hy0 ih hb he hd hp
    rw [clearLinesLoop.eq_def, dif_neg hc, dif_neg hy0]
    exact ih hb he hd (fun o ho => by have := hp o ho; omega)

/-- Every spawn candidate position is an empty, orb-free, in-bounds cell
below the top 4 rows. -/
theorem mem_spawnCandidates (g : GridState) (p : Position)
    (hp : p ∈ spawnCandidates g) :
    g.isEmpty p = true ∧ g.isOrbAt p = false
    ∧ (4 : Int) ≤ p.y ∧ p.y < (gridHeight : Int)
    ∧ (0 : Int) ≤ p.x ∧ p.x < (gridWidth : Int) := by
  simp only [spawnCandidates, List.mem_flatMap, List.mem_filterMap,
    List.mem_filter, List.mem_range, decide_eq_true_eq] at hp
  obtain ⟨yy, ⟨hy20, hy4⟩, xx, hx10, hcond⟩ := hp
  by_cases hc : (g.isEmpty ⟨(xx : Int), (yy : Int)⟩
      && !(g.isOrbAt ⟨(xx : Int), (yy : Int)⟩)) = true
  · rw [if_pos hc] at hcond
    rw [Option.some_inj] at hcond
    subst hcond
    rw [Bool.and_eq_true, Bool.not_eq_true'] at hc
    have hg20 : (gridHeight : Int) = 20 := rfl
    have hw10 : (gridWidth : Int) = 10 := rfl
    have hgh : gridHeight = 20 := rfl
    have hgw : gridWidth = 10 := rfl
    refine ⟨hc.1, hc.2, ?_, ?_, ?_, ?_⟩ <;> dsimp only <;> omega
  · rw [if_neg hc] at hcond
    cases hcond

/-- trySpawnOrb preserves the orb invariant: the new orb lands on an
empty, orb-free cell inside the grid and below the top 4 rows. -/
theorem trySpawnOrb_inv (g : GridState) (r : OrbRand) (h : GridInv g) :
    GridInv (g.trySpawnOrb r) := by
  obtain ⟨h1, h2, h3⟩ := h
  simp only [GridState.trySpawnOrb]
  split
  · exact ⟨h1, h2, h3⟩
  · split
    · exact ⟨h1, h2, h3⟩
    · rename_i p heq
      have hmem : p ∈ spawnCandidates g := by
        split_ifs at heq <;>
          first
            | exact Option.noConfusion heq
            | (have hm := List.get?_mem heq
               rw [List.mem_filter] at hm
               exact hm.1)
      obtain ⟨hemp, horb, h4, h20, hx0, hx10⟩ := mem_spawnCandidates g p hmem
      have hcell : g.cells p.y.toNat p.x.toNat = 0 := by
        unfold GridState.isEmpty at hemp
        rw [Bool.and_eq_true] at hemp
        have := hemp.2
        rwa [beq_iff_eq] at this
      have hnotat : ∀ o ∈ g.orbs, o.position ≠ p := by
        intro o ho hcon
        unfold GridState.isOrbAt at horb
        rw [List.any_eq_false] at horb
        have := horb o ho
        rw [Bool.and_eq_true] at this
        push_neg at this
        rw [hcon] at this
        simp at this
      refine ⟨?_, ?_, ?_⟩
      · intro o ho
        rcases List.mem_append.mp ho with hm | hm
        · exact h1 o hm
        · rw [List.mem_singleton] at hm
          subst hm
          exact hcell
      · rw [List.pairwise_append]
        refine ⟨h2, List.pairwise_singleton _ _, ?_⟩
        intro o ho o2 ho2
        rw [List.mem_singleton] at ho2
        subst ho2
        exact hnotat o ho
      · intro o ho
        rcases List.mem_append.mp ho with hm | hm
        · exact h3 o hm
        · rw [List.mem_singleton] at hm
          subst hm
          exact ⟨h4, h20, hx0, hx10⟩

/-- clearCell preserves the orb invariant (it only empties cells). -/
theorem clearCell_inv (g : GridState) (p : Position) (h : GridInv g) :
    GridInv (g.clearCell p) := by
  obtain ⟨h1, h2, h3⟩ := h
  unfold GridState.clearCell
  split_ifs with hb
  · refine ⟨?_, h2, h3⟩
    intro o ho
    dsimp only
    split_ifs with hm
    · rfl
    · exact h1 o ho
  · exact ⟨h1, h2, h3⟩

/-- clearLine preserves the orb invariant (it only empties cells). -/
theorem clearLine_inv (g : GridState) (y : Nat) (h : GridInv g) :
    GridInv (g.clearLine y) := by
  obtain ⟨h1, h2, h3⟩ := h
  refine ⟨?_, h2, h3⟩
  intro o ho
  show (if o.position.y.toNat = y then 0
    else g.cells o.position.y.toNat o.position.x.toNat) = 0
  split_ifs with hm
  · rfl
  · exact h1 o ho

theorem getColorIndex_orbs (g : GridState) (c : TetriminoType) :
    ((g.getColorIndex c).2).orbs = g.orbs := by
  unfold GridState.getColorIndex
  split <;> rfl

/-- place never touches the orb list (so orb distinctness and the
spawn-exclusion zone survive, but a piece may be placed onto a cell
holding an orb). -/
theorem place_orbs (g : GridState) (t : Tetrimino) :
    (g.place t).orbs = g.orbs :=
  getColorIndex_orbs g t.type

/-- clearLines preserves the orb invariant. -/
theorem clearLines_inv (g : GridState) (r : OrbRand) (h : GridInv g) :
    GridInv (g.clearLines r).1 := by
  obtain ⟨h1, h2, h3⟩ := h
  have hpf : gridHeight - 1 < gridHeight := by norm_num [gridHeight]
  set out := clearLinesLoop g [] 0 1 (gridHeight - 1) hpf with hout
  have hloop := clearLinesLoop_orb_inv g [] 0 1 (gridHeight - 1) hpf h3
    (fun o ho => Or.inr (h1 o ho))
    (h2.imp (fun hne => fun heq => absurd heq hne))
    (fun o ho => absurd ho (List.not_mem_nil o))
  obtain ⟨hb1, he1, hd1⟩ := hloop
  have hsub : List.Pairwise
      (fun a b : Orb =>
        a.position = b.position → a ∈ out.2.1 ∨ b ∈ out.2.1)
      (out.1.orbs.filter (fun o => decide (o ∉ out.2.1))) :=
    hd1.sublist (List.filter_sublist _)
  have hg2 : GridInv
      { out.1 with
        orbs := out.1.orbs.filter (fun o => decide (o ∉ out.2.1)) } := by
    refine ⟨?_, ?_, ?_⟩
    · intro o ho
      rw [List.mem_filter, decide_eq_true_eq] at ho
      exact (he1 o ho.1).resolve_left ho.2
    · refine hsub.imp_of_mem ?_
      intro a b ha hb hR heq
      rw [List.mem_filter, decide_eq_true_eq] at ha hb
      rcases hR heq with hm | hm
      · exact absurd hm ha.2
      · exact absurd hm hb.2
    · intro o ho
      rw [List.mem_filter] at ho
      exact hb1 o ho.1
  simp only [GridState.clearLines]
  split_ifs <;> first
    | exact trySpawnOrb_inv _ r hg2
    | exact hg2

/-- C2 counterexample: a grid satisfying the orb invariant, and a
legally placeable O piece covering the orb cell; after place the orb
sits on a filled cell, so the invariant is not preserved by place. -/
theorem c2_counterexample :
    GridInv orbGrid ∧ orbGrid.canPlace oPieceOnOrb = true
    ∧ ¬ GridInv (orbGrid.place oPieceOnOrb) := by
  refine ⟨?_, by decide, ?_⟩
  · refine ⟨?_, ?_, ?_⟩
    · intro o ho
      have ho2 : o = (⟨⟨4, 10⟩, 2, OrbType.SMALL⟩ : Orb) := by
        simpa [orbGrid, emptyGrid] using ho
      subst ho2
      rfl
    · exact List.pairwise_singleton _ _
    · intro o ho
      have ho2 : o = (⟨⟨4, 10⟩, 2, OrbType.SMALL⟩ : Orb) := by
        simpa [orbGrid, emptyGrid] using ho
      subst ho2
      refine ⟨by norm_num, by norm_num [gridHeight], by norm_num,
        by norm_num [gridWidth]⟩
  · intro hcon
    have hmem : (⟨⟨4, 10⟩, 2, OrbType.SMALL⟩ : Orb)
        ∈ (orbGrid.place oPieceOnOrb).orbs := by
      rw [place_orbs]
      exact List.mem_singleton.mpr rfl
    have hcell := hcon.1 _ hmem
    have hval : (orbGrid.place oPieceOnOrb).cells 10 4 = 1 := by decide
    rw [show ((⟨⟨4, 10⟩, 2, OrbType.SMALL⟩ : Orb).position.y.toNat) = 10
        from rfl,
      show ((⟨⟨4, 10⟩, 2, OrbType.SMALL⟩ : Orb).position.x.toNat) = 4
        from rfl, hval] at hcell
    cases hcell

/-- C2 (amended): the orb invariant (orbs on empty cells, pairwise
distinct cells, never in the top 4 rows, inside the grid) is preserved
by clearLines (including orb shifting, removal and replacement
spawning), clearCell, clearLine and reset; place leaves the orb list
unchanged (so distinctness and the exclusion zone survive) but can
fill the cell under an orb, breaking the on-empty-cell part. -/
theorem c2_orb_invariant (g : GridState) (h : GridInv g) :
    (∀ t : Tetrimino, (g.place t).orbs = g.orbs
      ∧ List.Pairwise (fun a b : Orb => a.position ≠ b.position)
          (g.place t).orbs
      ∧ OrbsBounded (g.place t).orbs)
    ∧ (∀ r : OrbRand, GridInv (g.clearLines r).1)
    ∧ (∀ p : Position, GridInv (g.clearCell p))
    ∧ (∀ y : Nat, GridInv (g.clearLine y))
    ∧ GridInv g.reset := by
  obtain ⟨h1, h2, h3⟩ := h
  refine ⟨?_, fun r => clearLines_inv g r ⟨h1, h2, h3⟩,
    fun p => clearCell_inv g p ⟨h1, h2, h3⟩,
    fun y => clearLine_inv g y ⟨h1, h2, h3⟩, ?_⟩
  · intro t
    rw [place_orbs]
    exact ⟨rfl, h2, h3⟩
  · exact ⟨fun o ho => absurd ho (List.not_mem_nil o), List.Pairwise.nil,
      fun o ho => absurd ho (List.not_mem_nil o)⟩

/-- Witness for C2 at the one-orb grid. -/
theorem c2_witness :
    GridInv orbGrid
    ∧ ((∀ t : Tetrimino, (orbGrid.place t).orbs = orbGrid.orbs
        ∧ List.Pairwise (fun a b : Orb => a.position ≠ b.position)
            (orbGrid.place t).orbs
        ∧ OrbsBounded (orbGrid.place t).orbs)
      ∧ (∀ r : OrbRand, GridInv (orbGrid.clearLines r).1)
      ∧ (∀ p : Position, GridInv (orbGrid.clearCell p))
      ∧ (∀ y : Nat, GridInv (orbGrid.clearLine y))
      ∧ GridInv orbGrid.reset) := by
  have hInv : GridInv orbGrid := by
    refine ⟨?_, List.pairwise_singleton _ _, ?_⟩
    · intro o ho
      have ho2 : o = (⟨⟨4, 10⟩, 2, OrbType.SMALL⟩ : Orb) := by
        simpa [orbGrid, emptyGrid] using ho
      subst ho2
      rfl
    · intro o ho
      have ho2 : o = (⟨⟨4, 10⟩, 2, OrbType.SMALL⟩ : Orb) := by
        simpa [orbGrid, emptyGrid] using ho
      subst ho2
      refine ⟨by norm_num, by norm_num [gridHeight], by norm_num,
        by norm_num [gridWidth]⟩
  exact ⟨hInv, c2_orb_invariant orbGrid hInv⟩

/-- Witness for C8: the spawn-position I piece on an empty grid has both
side positions valid and round-trips. -/
theorem c8_witness :
    isValidMove engineCenter.grid pieceCenter.moveLeft = true
    ∧ isValidMove engineCenter.grid pieceCenter = true
    ∧ (moveRightE (moveLeftE engineCenter)).currentTetrimino
        = engineCenter.currentTetrimino
    ∧ (moveRightE (moveLeftE engineCenter)).grid = engineCenter.grid :=
  ⟨by decide, by decide,
   (c8_round_trip engineCenter pieceCenter rfl (by decide) (by decide)).1,
   (c8_round_trip engineCenter pieceCenter rfl (by decide) (by decide)).2⟩

end BlockDrop
